import Mathlib

/-!
Verification of the incremental-disclosure rendering scheduler of the
xyflow Svelte fork: the progressive node/edge admission batchers, the
coalescing viewport batcher and the staggered resize-observation
registrar.

JavaScript `Map`s are modelled as insertion-ordered association lists
`List (String × α)`; `Map.set` replaces the payload in place when the key
is present and appends otherwise, `Map.delete` removes the key, and
iteration follows insertion order, exactly as in the JS semantics the
source relies on.  `performance.now()` timestamps and all JS numbers that
the claims exercise are modelled as rationals; `requestAnimationFrame`
and `setTimeout` handles are modelled as explicit scheduling flags on the
state, and firing a scheduled callback is an explicit step function.
-/

/-- `Map.has` of a JS map. -/
def mapHas {α : Type} (m : List (String × α)) (k : String) : Bool :=
  m.any (fun p => p.1 == k)

/-- `Map.get` of a JS map (`undefined` becomes `none`). -/
def mapGet {α : Type} (m : List (String × α)) (k : String) : Option α :=
  match m.find? (fun p => p.1 == k) with
  | some p => some p.2
  | none => none

/-- `Map.set` of a JS map: replace in place when present, append otherwise. -/
def mapSet {α : Type} (m : List (String × α)) (k : String) (v : α) : List (String × α) :=
  if mapHas m k then m.map (fun p => if p.1 == k then (k, v) else p)
  else m ++ [(k, v)]

/-- The keys of a JS map, in insertion order. -/
def mapKeys {α : Type} (m : List (String × α)) : List String :=
  m.map Prod.fst

/-- `for (const [id, v] of src) dst.set(id, v)` over a whole list. -/
def setAll {α : Type} (m : List (String × α)) (l : List (String × α)) : List (String × α) :=
  l.foldl (fun acc p => mapSet acc p.1 p.2) m

/-! ## Progressive node batcher

Model of `ProgressiveNodeBatcher` from
`packages/svelte/dist/lib/utils/progressiveNodeBatcher.js` (the built
variant with velocity gating; `part_006` is the same algorithm without
the velocity fields).  Node payloads are modelled as `Nat` standing for
JS object identity, so the JS reference comparison `existing !== node`
becomes value inequality.  `rafId` is modelled by `raf : Option RafTask`
recording which callback body is scheduled (`requestAnimationFrame` in
`scheduleNextBatch` schedules the batch body, `flushGradually` schedules
the gradual-flush body); `staleCheckTimeoutId` is modelled by a Bool.
The JS field `currentVelocity` is only ever observed through the
comparison `currentVelocity > maxPanVelocity` (inside the guard
`maxPanVelocity > 0` with `dt > 0`), so the model stores its square
`currentVelocitySq = (dx*dx+dy*dy)/(dt*dt)` and compares against
`maxPanVelocity^2`, which is equivalent to the source comparison
`sqrt(dx*dx+dy*dy)/dt > maxPanVelocity` for positive `maxPanVelocity`. -/

/-- Node-keyed JS map: key is the node id, payload is object identity. -/
abbrev NMap := List (String × Nat)

/-- Which `requestAnimationFrame` callback is currently scheduled. -/
inductive RafTask where
  | batch : RafTask
  | gradual : ℚ → RafTask
deriving DecidableEq

structure NodeBatcher where
  pendingNodes : NMap
  renderedNodes : NMap
  batchSize : ℚ
  threshold : ℚ
  raf : Option RafTask
  accumulator : ℚ
  isFlushing : Bool
  cachedReturnMap : Option NMap
  cachedPendingMap : NMap
  dirty : Bool
  maxPanVelocity : ℚ
  lastViewportPos : Option (ℚ × ℚ)
  lastUpdateTime : ℚ
  currentVelocitySq : ℚ
  isPanningFast : Bool
  staleCheckScheduled : Bool
deriving DecidableEq

/-- The constructor `new ProgressiveNodeBatcher(options)`. -/
def NodeBatcher.init (threshold batchSize maxPanVelocity : ℚ) : NodeBatcher :=
  { pendingNodes := [], renderedNodes := [], batchSize := batchSize, threshold := threshold,
    raf := none, accumulator := 0, isFlushing := false, cachedReturnMap := none,
    cachedPendingMap := [], dirty := true, maxPanVelocity := maxPanVelocity,
    lastViewportPos := none, lastUpdateTime := 0, currentVelocitySq := 0,
    isPanningFast := false, staleCheckScheduled := false }

/-- `scheduleNextBatch`: schedule the batch RAF callback unless one is
already scheduled or nothing is pending. -/
def NodeBatcher.scheduleNextBatch (s : NodeBatcher) : NodeBatcher :=
  if s.raf ≠ none ∨ s.pendingNodes = [] then s else { s with raf := some RafTask.batch }

/-- `scheduleStaleVelocityCheck`: schedule the stale-velocity timeout
unless one is already scheduled. -/
def NodeBatcher.scheduleStaleVelocityCheck (s : NodeBatcher) : NodeBatcher :=
  if s.staleCheckScheduled then s else { s with staleCheckScheduled := true }

/-- The velocity-tracking prologue of `updateVisibleNodes` (runs when a
viewport position is supplied and `maxPanVelocity > 0`). -/
def NodeBatcher.velocityStep (s : NodeBatcher) (viewportPos : Option (ℚ × ℚ)) (now : ℚ) :
    NodeBatcher :=
  match viewportPos with
  | none => s
  | some pos =>
    if s.maxPanVelocity > 0 then
      let s1 :=
        match s.lastViewportPos with
        | some lp =>
          if s.lastUpdateTime > 0 then
            let dt := (now - s.lastUpdateTime) / 1000
            if dt > 0 then
              let dx := pos.1 - lp.1
              let dy := pos.2 - lp.2
              let vsq := (dx * dx + dy * dy) / (dt * dt)
              { s with currentVelocitySq := vsq,
                       isPanningFast := decide (vsq > s.maxPanVelocity * s.maxPanVelocity) }
            else s
          else s
        | none => s
      { s1 with lastViewportPos := some pos, lastUpdateTime := now }
    else s

/-- The `newlyVisible` map computed at the top of `updateVisibleNodes`:
visible entries absent from `previouslyRenderedNodes`, from the rendered
map and from the pending map. -/
def NodeBatcher.newlyVisibleOf (s : NodeBatcher) (allVisibleNodes prevRendered : NMap) : NMap :=
  allVisibleNodes.filter (fun p =>
    !(mapHas prevRendered p.1) && !(mapHas s.renderedNodes p.1) && !(mapHas s.pendingNodes p.1))

/-- The payload-refresh loop of `updateVisibleNodes`: for each visible
entry, re-`set` it in the rendered and pending maps when the stored
payload differs, accumulating `hasChanges`. -/
def refreshAll (vis : NMap) (rend pend : NMap) (hc : Bool) : NMap × NMap × Bool :=
  match vis with
  | [] => (rend, pend, hc)
  | (k, v) :: rest =>
    let rp : NMap × Bool :=
      if mapHas rend k then
        if mapGet rend k = some v then (rend, hc) else (mapSet rend k v, true)
      else (rend, hc)
    let pp : NMap × Bool :=
      if mapHas pend k then
        if mapGet pend k = some v then (pend, rp.2) else (mapSet pend k v, true)
      else (pend, rp.2)
    refreshAll rest rp.1 pp.1 pp.2

/-- The scheduling tail of the over-threshold branch of
`updateVisibleNodes`: start progressive loading unless flushing or
panning fast; when panning fast, schedule the stale-velocity check
instead. -/
def NodeBatcher.progressiveKick (t : NodeBatcher) : NodeBatcher :=
  if t.isFlushing = false ∧ t.isPanningFast = false then t.scheduleNextBatch
  else if t.isPanningFast = true then t.scheduleStaleVelocityCheck
  else t

/-- The "velocity dropped" block of `updateVisibleNodes`: when nodes are
pending, no flush is running, panning is not fast and no RAF is
scheduled, kick the batch scheduler. -/
def NodeBatcher.velocityKick (t : NodeBatcher) : NodeBatcher :=
  if t.pendingNodes ≠ [] ∧ t.isPanningFast = false ∧ t.isFlushing = false ∧ t.raf = none
  then t.scheduleNextBatch else t

/-- The body of `updateVisibleNodes` after the velocity prologue and the
`threshold === 0` early return: drop invisible ids, refresh payloads,
queue or admit `newlyVisible`, re-kick the scheduler when velocity has
dropped, and refresh the cached snapshot maps. -/
def NodeBatcher.core (s : NodeBatcher) (allVisibleNodes prevRendered : NMap) : NodeBatcher :=
  let nv := s.newlyVisibleOf allVisibleNodes prevRendered
  let hc1 := s.renderedNodes.any (fun p => !(mapHas allVisibleNodes p.1))
      || s.pendingNodes.any (fun p => !(mapHas allVisibleNodes p.1))
  let rend1 := s.renderedNodes.filter (fun p => mapHas allVisibleNodes p.1)
  let pend1 := s.pendingNodes.filter (fun p => mapHas allVisibleNodes p.1)
  let rph := refreshAll allVisibleNodes rend1 pend1 hc1
  let s2 := { s with renderedNodes := rph.1, pendingNodes := rph.2.1 }
  let s4hc : NodeBatcher × Bool :=
    if (nv.length : ℚ) > s.threshold then
      let cancel := s2.isFlushing = false ∧ s2.raf ≠ none
      let s3 := { s2 with pendingNodes := setAll s2.pendingNodes nv,
                          raf := if cancel then none else s2.raf,
                          accumulator := if cancel then 0 else s2.accumulator }
      (s3.progressiveKick, true)
    else if 0 < nv.length then
      ({ s2 with renderedNodes := setAll s2.renderedNodes nv }, true)
    else (s2, rph.2.2)
  let s5 := s4hc.1.velocityKick
  if s4hc.2 = true ∨ s5.dirty = true ∨ s5.cachedReturnMap = none then
    { s5 with cachedReturnMap := some s5.renderedNodes,
              cachedPendingMap := s5.pendingNodes,
              dirty := false }
  else s5

/-- `updateVisibleNodes(allVisibleNodes, previouslyRenderedNodes, viewportPos)`
at time `now`; returns the new state together with the returned map. -/
def NodeBatcher.updateVisibleNodes (s : NodeBatcher) (allVisibleNodes prevRendered : NMap)
    (viewportPos : Option (ℚ × ℚ)) (now : ℚ) : NodeBatcher × NMap :=
  let s1 := s.velocityStep viewportPos now
  if s1.threshold = 0 then ({ s1 with renderedNodes := allVisibleNodes }, allVisibleNodes)
  else
    let s2 := s1.core allVisibleNodes prevRendered
    (s2, s2.cachedReturnMap.getD [])

/-- The admission loop shared by the RAF bodies and the gradual flush:
walk the pending map in insertion order and move entries into the
rendered map until `added >= limit`; returns the remaining pending map,
the new rendered map and the number of admitted entries. -/
def admitGo (pending rendered : NMap) (added : ℕ) (limit : ℚ) : NMap × NMap × ℕ :=
  match pending with
  | [] => ([], rendered, added)
  | (k, v) :: rest =>
    if (added : ℚ) ≥ limit then ((k, v) :: rest, rendered, added)
    else admitGo rest (mapSet rendered k v) (added + 1) limit

/-- `flushGradually(batchSize)`: cancel any scheduled RAF; when nothing is
pending clear `isFlushing`, otherwise enter flush mode and schedule the
gradual-flush RAF body. -/
def NodeBatcher.flushGradually (s : NodeBatcher) (b : ℚ) : NodeBatcher :=
  let s0 := { s with raf := none }
  if s0.pendingNodes = [] then { s0 with isFlushing := false }
  else { s0 with isFlushing := true, raf := some (RafTask.gradual b) }

/-- The RAF callback body scheduled by `scheduleNextBatch`: accumulate the
(possibly fractional) batch size, admit `floor(accumulator)` pending
nodes, mark dirty when anything was admitted, and re-schedule while
nodes remain pending. -/
def NodeBatcher.batchBody (s : NodeBatcher) : NodeBatcher :=
  let s0 := { s with raf := none }
  let acc := s0.accumulator + s0.batchSize
  let n : ℤ := ⌊acc⌋
  let r := admitGo s0.pendingNodes s0.renderedNodes 0 (n : ℚ)
  let s2 := { s0 with pendingNodes := r.1, renderedNodes := r.2.1, accumulator := acc - n }
  let s3 := if 0 < r.2.2 then { s2 with dirty := true, cachedPendingMap := r.1 } else s2
  if s3.pendingNodes ≠ [] then s3.scheduleNextBatch else s3

/-- The RAF callback body scheduled by `flushGradually`: admit up to `b`
pending nodes, then either recurse into `flushGradually` or leave flush
mode. -/
def NodeBatcher.gradualBody (s : NodeBatcher) (b : ℚ) : NodeBatcher :=
  let s0 := { s with raf := none }
  let r := admitGo s0.pendingNodes s0.renderedNodes 0 b
  let s2 := { s0 with pendingNodes := r.1, renderedNodes := r.2.1 }
  let s3 := if 0 < r.2.2 then { s2 with dirty := true, cachedPendingMap := r.1 } else s2
  if s3.pendingNodes ≠ [] then s3.flushGradually b else { s3 with isFlushing := false }

/-- Fire whichever RAF callback is scheduled (no-op when none is). -/
def NodeBatcher.fireRaf (s : NodeBatcher) : NodeBatcher :=
  match s.raf with
  | none => s
  | some RafTask.batch => s.batchBody
  | some (RafTask.gradual b) => s.gradualBody b

/-- The `setTimeout` callback body of `scheduleStaleVelocityCheck`, fired
at time `now` (no-op when no timeout is scheduled). -/
def NodeBatcher.staleVelocityCheck (s : NodeBatcher) (now : ℚ) : NodeBatcher :=
  if s.staleCheckScheduled = false then s
  else
    let s0 := { s with staleCheckScheduled := false }
    if now - s0.lastUpdateTime ≥ 100 then
      let s1 := { s0 with isPanningFast := false, currentVelocitySq := 0 }
      if s1.pendingNodes ≠ [] ∧ s1.isFlushing = false ∧ s1.raf = none
      then s1.scheduleNextBatch else s1
    else s0.scheduleStaleVelocityCheck

/-- `hasPendingNodes()`. -/
def NodeBatcher.hasPendingNodes (s : NodeBatcher) : Bool :=
  !s.pendingNodes.isEmpty

/-- `flush()`: cancel any scheduled RAF and admit every pending node. -/
def NodeBatcher.flush (s : NodeBatcher) : NodeBatcher :=
  let s0 := { s with raf := none }
  if s0.pendingNodes = [] then s0
  else { s0 with renderedNodes := setAll s0.renderedNodes s0.pendingNodes,
                 pendingNodes := [], dirty := true, cachedPendingMap := [] }

/-- `reset()`. -/
def NodeBatcher.reset (s : NodeBatcher) : NodeBatcher :=
  { s with raf := none, staleCheckScheduled := false, pendingNodes := [], renderedNodes := [],
           cachedReturnMap := none, cachedPendingMap := [], dirty := true, accumulator := 0,
           isFlushing := false, lastViewportPos := none, lastUpdateTime := 0,
           currentVelocitySq := 0, isPanningFast := false }

/-- `updateConfig(options)`. -/
def NodeBatcher.updateConfig (s : NodeBatcher) (threshold batchSize maxPanVelocity : Option ℚ) :
    NodeBatcher :=
  { s with threshold := threshold.getD s.threshold,
           batchSize := batchSize.getD s.batchSize,
           maxPanVelocity := maxPanVelocity.getD s.maxPanVelocity }

/-- `destroy()`: cancel the RAF and the stale-check timeout and release
the maps.  Note the source resets neither `threshold`/`batchSize` nor
`accumulator`, and sets no destroyed flag. -/
def NodeBatcher.destroy (s : NodeBatcher) : NodeBatcher :=
  { s with raf := none, staleCheckScheduled := false, pendingNodes := [], renderedNodes := [],
           cachedReturnMap := none, cachedPendingMap := [], dirty := true, isFlushing := false,
           lastViewportPos := none, lastUpdateTime := 0, currentVelocitySq := 0,
           isPanningFast := false }

/-! ## Progressive edge batcher (TypeScript source variant)

Model of `ProgressiveEdgeBatcher` from
`packages/svelte/src/lib/utils/progressiveEdgeBatcher.ts`: the variant
with the `canRender` callback ("edges only render when their source and
target nodes are already rendered (checked via canRender callback)").
An edge payload keeps the endpoint ids that `canRender` inspects. -/

structure EdgeItem where
  source : String
  target : String
deriving DecidableEq

abbrev EMap := List (String × EdgeItem)

structure EdgeBatcherTS where
  pendingEdges : EMap
  renderedEdges : EMap
  rafScheduled : Bool
  batchSize : ℚ
  threshold : ℚ
  accumulator : ℚ
  canRender : Option (EdgeItem → Bool)

/-- The constructor `new ProgressiveEdgeBatcher(options)` (the `canRender`
callback is `null` until set externally). -/
def EdgeBatcherTS.init (threshold batchSize : ℚ) : EdgeBatcherTS :=
  { pendingEdges := [], renderedEdges := [], rafScheduled := false, batchSize := batchSize,
    threshold := threshold, accumulator := 0, canRender := none }

/-- `this.canRender && !this.canRender(edge)` negated: whether an edge may
be admitted given the optional callback. -/
def canRenderOk (cr : Option (EdgeItem → Bool)) (e : EdgeItem) : Bool :=
  match cr with
  | none => true
  | some p => p e

/-- `scheduleNextBatch` of the TS edge batcher. -/
def EdgeBatcherTS.scheduleNextBatch (s : EdgeBatcherTS) : EdgeBatcherTS :=
  if s.rafScheduled = true ∨ s.pendingEdges = [] then s else { s with rafScheduled := true }

/-- The payload-refresh loop of the TS edge batcher (unconditional
re-`set` of every visible id already rendered). -/
def refreshTS (vis rend : EMap) : EMap :=
  vis.foldl (fun r p => if mapHas r p.1 then mapSet r p.1 p.2 else r) rend

/-- `updateVisibleEdges(allVisibleEdges, previouslyRenderedEdges)` of the
TS edge batcher; returns the new state and the returned map.  Note that
`newlyVisible` here checks only `previouslyRendered` and the rendered
map (not the pending map), and that the below-threshold branch admits
all newly visible edges with no `canRender` check. -/
def EdgeBatcherTS.updateVisibleEdges (s : EdgeBatcherTS) (allVisibleEdges prevRendered : EMap) :
    EdgeBatcherTS × EMap :=
  if s.threshold = 0 then ({ s with renderedEdges := allVisibleEdges }, allVisibleEdges)
  else
    let nv := allVisibleEdges.filter
      (fun p => !(mapHas prevRendered p.1) && !(mapHas s.renderedEdges p.1))
    let rend1 := s.renderedEdges.filter (fun p => mapHas allVisibleEdges p.1)
    let pend1 := s.pendingEdges.filter (fun p => mapHas allVisibleEdges p.1)
    let rend2 := refreshTS allVisibleEdges rend1
    let s2 := { s with renderedEdges := rend2, pendingEdges := pend1 }
    let s3 :=
      if (nv.length : ℚ) > s.threshold then
        ({ s2 with pendingEdges := setAll s2.pendingEdges nv }).scheduleNextBatch
      else { s2 with renderedEdges := setAll s2.renderedEdges nv }
    (s3, s3.renderedEdges)

/-- The admission loop of the TS edge batcher's RAF body: admit pending
edges in order up to `limit`, skipping (and keeping pending) any edge the
`canRender` callback rejects. -/
def admitCR (pending rendered : EMap) (cr : Option (EdgeItem → Bool)) (added : ℕ) (limit : ℚ) :
    EMap × EMap × ℕ :=
  match pending with
  | [] => ([], rendered, added)
  | (k, e) :: rest =>
    if (added : ℚ) ≥ limit then ((k, e) :: rest, rendered, added)
    else if canRenderOk cr e = false then
      let r := admitCR rest rendered cr added limit
      ((k, e) :: r.1, r.2.1, r.2.2)
    else admitCR rest (mapSet rendered k e) cr (added + 1) limit

/-- The RAF callback body scheduled by the TS edge batcher's
`scheduleNextBatch` (no-op when none is scheduled). -/
def EdgeBatcherTS.batchStep (s : EdgeBatcherTS) : EdgeBatcherTS :=
  if s.rafScheduled = false then s
  else
    let s0 := { s with rafScheduled := false }
    let acc := s0.accumulator + s0.batchSize
    let n : ℤ := ⌊acc⌋
    let r := admitCR s0.pendingEdges s0.renderedEdges s0.canRender 0 (n : ℚ)
    let s2 := { s0 with pendingEdges := r.1, renderedEdges := r.2.1, accumulator := acc - n }
    if s2.pendingEdges ≠ [] then s2.scheduleNextBatch else s2

/-- `hasPendingEdges()` of the TS edge batcher. -/
def EdgeBatcherTS.hasPendingEdges (s : EdgeBatcherTS) : Bool :=
  !s.pendingEdges.isEmpty

/-- `flush()` of the TS edge batcher: cancel the RAF, then admit every
pending edge that `canRender` accepts (rejected edges stay pending). -/
def EdgeBatcherTS.flush (s : EdgeBatcherTS) : EdgeBatcherTS :=
  let s0 := { s with rafScheduled := false }
  let admitted := s0.pendingEdges.filter (fun p => canRenderOk s0.canRender p.2)
  let kept := s0.pendingEdges.filter (fun p => !(canRenderOk s0.canRender p.2))
  { s0 with renderedEdges := setAll s0.renderedEdges admitted, pendingEdges := kept }

/-- `reset()` of the TS edge batcher. -/
def EdgeBatcherTS.reset (s : EdgeBatcherTS) : EdgeBatcherTS :=
  { s with rafScheduled := false, pendingEdges := [], renderedEdges := [], accumulator := 0 }

/-- `updateConfig(options)` of the TS edge batcher. -/
def EdgeBatcherTS.updateConfig (s : EdgeBatcherTS) (threshold batchSize : Option ℚ) :
    EdgeBatcherTS :=
  { s with threshold := threshold.getD s.threshold, batchSize := batchSize.getD s.batchSize }

/-- `destroy()` of the TS edge batcher. -/
def EdgeBatcherTS.destroy (s : EdgeBatcherTS) : EdgeBatcherTS :=
  { s with rafScheduled := false, pendingEdges := [], renderedEdges := [] }

/-! ## Progressive edge batcher (built dist variant)

Model of `ProgressiveEdgeBatcher` from
`packages/svelte/dist/lib/utils/progressiveEdgeBatcher.js`: the variant
with velocity gating and synchronous batch admission inside
`updateVisibleEdges` (no RAF, no `canRender`).  Edge payloads are opaque
(`Nat` for object identity), as nothing in this variant inspects them. -/

structure EdgeBatcher where
  pendingEdges : NMap
  renderedEdges : NMap
  batchSize : ℚ
  threshold : ℚ
  cachedReturnMap : Option NMap
  dirty : Bool
  maxPanVelocity : ℚ
  lastViewportPos : Option (ℚ × ℚ)
  lastUpdateTime : ℚ
  currentVelocitySq : ℚ
  isPanningFast : Bool
  staleCheckScheduled : Bool
deriving DecidableEq

/-- The constructor `new ProgressiveEdgeBatcher(options)`. -/
def EdgeBatcher.init (threshold batchSize maxPanVelocity : ℚ) : EdgeBatcher :=
  { pendingEdges := [], renderedEdges := [], batchSize := batchSize, threshold := threshold,
    cachedReturnMap := none, dirty := true, maxPanVelocity := maxPanVelocity,
    lastViewportPos := none, lastUpdateTime := 0, currentVelocitySq := 0,
    isPanningFast := false, staleCheckScheduled := false }

/-- The velocity-tracking prologue of `updateVisibleEdges` (same code as
the node batcher's). -/
def EdgeBatcher.velocityStep (s : EdgeBatcher) (viewportPos : Option (ℚ × ℚ)) (now : ℚ) :
    EdgeBatcher :=
  match viewportPos with
  | none => s
  | some pos =>
    if s.maxPanVelocity > 0 then
      let s1 :=
        match s.lastViewportPos with
        | some lp =>
          if s.lastUpdateTime > 0 then
            let dt := (now - s.lastUpdateTime) / 1000
            if dt > 0 then
              let dx := pos.1 - lp.1
              let dy := pos.2 - lp.2
              let vsq := (dx * dx + dy * dy) / (dt * dt)
              { s with currentVelocitySq := vsq,
                       isPanningFast := decide (vsq > s.maxPanVelocity * s.maxPanVelocity) }
            else s
          else s
        | none => s
      { s1 with lastViewportPos := some pos, lastUpdateTime := now }
    else s

/-- The synchronous admission loop of the dist edge batcher: walk the
pending map in order until `added >= batchSize`, admitting each processed
edge into the rendered map only when it is still visible, deleting every
processed entry from the pending map. -/
def edgeAdmit (pending rendered vis : NMap) (added : ℕ) (batchSize : ℚ) (hc : Bool) :
    NMap × NMap × Bool :=
  match pending with
  | [] => ([], rendered, hc)
  | (k, v) :: rest =>
    if (added : ℚ) ≥ batchSize then ((k, v) :: rest, rendered, hc)
    else if mapHas vis k then edgeAdmit rest (mapSet rendered k v) vis (added + 1) batchSize true
    else edgeAdmit rest rendered vis (added + 1) batchSize hc

/-- The rendered-payload refresh loop of the dist edge batcher (only the
rendered map, with the reference-change check), threading `hasChanges`. -/
def refreshEB (vis : NMap) (rend : NMap) (hc : Bool) : NMap × Bool :=
  match vis with
  | [] => (rend, hc)
  | (k, v) :: rest =>
    let rp : NMap × Bool :=
      if mapHas rend k then
        if mapGet rend k = some v then (rend, hc) else (mapSet rend k v, true)
      else (rend, hc)
    refreshEB rest rp.1 rp.2

/-- `scheduleStaleVelocityCheck` of the dist edge batcher. -/
def EdgeBatcher.scheduleStaleVelocityCheck (s : EdgeBatcher) : EdgeBatcher :=
  if s.staleCheckScheduled then s else { s with staleCheckScheduled := true }

/-- The body of the dist edge batcher's `updateVisibleEdges` after the
velocity prologue and the `threshold === 0` early return. -/
def EdgeBatcher.core (s : EdgeBatcher) (allVisibleEdges prevRendered : NMap) : EdgeBatcher :=
  let nv := allVisibleEdges.filter (fun p =>
    !(mapHas prevRendered p.1) && !(mapHas s.renderedEdges p.1) && !(mapHas s.pendingEdges p.1))
  let hc1 := s.renderedEdges.any (fun p => !(mapHas allVisibleEdges p.1))
  let rend1 := s.renderedEdges.filter (fun p => mapHas allVisibleEdges p.1)
  let pend1 := s.pendingEdges.filter (fun p => mapHas allVisibleEdges p.1)
  let rh := refreshEB allVisibleEdges rend1 hc1
  -- process pending edges first (only when not panning too fast)
  let step1 : NMap × NMap × Bool × Bool :=
    if pend1 ≠ [] then
      if s.isPanningFast = false then
        let r := edgeAdmit pend1 rh.1 allVisibleEdges 0 s.batchSize rh.2
        (r.1, r.2.1, r.2.2, false)
      else (pend1, rh.1, rh.2, true)
    else (pend1, rh.1, rh.2, false)
  -- queue newly visible edges above the threshold, admitting a first batch
  let step2 : NMap × NMap × Bool × Bool :=
    if (nv.length : ℚ) > s.threshold then
      let pend2 := setAll step1.1 nv
      if s.isPanningFast = false then
        let r := edgeAdmit pend2 step1.2.1 allVisibleEdges 0 s.batchSize step1.2.2.1
        (r.1, r.2.1, r.2.2, step1.2.2.2)
      else (pend2, step1.2.1, step1.2.2.1, true)
    else if 0 < nv.length then
      (step1.1, setAll step1.2.1 nv, true, step1.2.2.2)
    else step1
  let s2 : EdgeBatcher := { s with pendingEdges := step2.1, renderedEdges := step2.2.1 }
  let s3 : EdgeBatcher := if step2.2.2.2 = true then s2.scheduleStaleVelocityCheck else s2
  if step2.2.2.1 = true ∨ s3.dirty = true ∨ s3.cachedReturnMap = none then
    { s3 with cachedReturnMap := some s3.renderedEdges, dirty := false }
  else s3

/-- `updateVisibleEdges(allVisibleEdges, previouslyRenderedEdges, viewportPos)`
of the dist edge batcher at time `now`. -/
def EdgeBatcher.updateVisibleEdges (s : EdgeBatcher) (allVisibleEdges prevRendered : NMap)
    (viewportPos : Option (ℚ × ℚ)) (now : ℚ) : EdgeBatcher × NMap :=
  let s1 := s.velocityStep viewportPos now
  if s1.threshold = 0 then ({ s1 with renderedEdges := allVisibleEdges }, allVisibleEdges)
  else
    let s2 := s1.core allVisibleEdges prevRendered
    (s2, s2.cachedReturnMap.getD [])

/-- `hasPendingEdges()` of the dist edge batcher. -/
def EdgeBatcher.hasPendingEdges (s : EdgeBatcher) : Bool :=
  !s.pendingEdges.isEmpty

/-- `flush()` of the dist edge batcher: admit every pending edge
unconditionally (no visibility or endpoint check). -/
def EdgeBatcher.flush (s : EdgeBatcher) : EdgeBatcher :=
  { s with renderedEdges := setAll s.renderedEdges s.pendingEdges,
           pendingEdges := [], dirty := true }

/-- `flushGradually(batchSize)` of the dist edge batcher: admit up to
`batchSize` pending edges unconditionally. -/
def EdgeBatcher.flushGradually (s : EdgeBatcher) (batchSize : Option ℚ) : EdgeBatcher :=
  let size := batchSize.getD s.batchSize
  let r := admitGo s.pendingEdges s.renderedEdges 0 size
  let s2 := { s with pendingEdges := r.1, renderedEdges := r.2.1 }
  if 0 < r.2.2 then { s2 with dirty := true } else s2

/-! ## Coalescing viewport batcher

Model of `ViewportBatcher` from
`packages/svelte/src/lib/utils/viewportBatcher.ts` (the plain
requestAnimationFrame coalescer).  The externally supplied `applyFn`
side effect is modelled as an append-only log of applied viewports. -/

structure Viewport where
  x : ℚ
  y : ℚ
  zoom : ℚ
deriving DecidableEq

structure ViewportBatcher where
  rafScheduled : Bool
  pendingViewport : Option Viewport
  applied : List Viewport
deriving DecidableEq

/-- The constructor `new ViewportBatcher(applyFn)`. -/
def ViewportBatcher.init : ViewportBatcher :=
  { rafScheduled := false, pendingViewport := none, applied := [] }

/-- `schedule(viewport)`: record the latest viewport and ensure one RAF is
scheduled. -/
def ViewportBatcher.schedule (s : ViewportBatcher) (v : Viewport) : ViewportBatcher :=
  let s0 := { s with pendingViewport := some v }
  if s0.rafScheduled = true then s0 else { s0 with rafScheduled := true }

/-- The RAF callback: apply the pending viewport (if any) and clear the
handle (no-op when no frame is scheduled). -/
def ViewportBatcher.frameFire (s : ViewportBatcher) : ViewportBatcher :=
  if s.rafScheduled = false then s
  else
    let s1 :=
      match s.pendingViewport with
      | some v => { s with applied := s.applied ++ [v], pendingViewport := none }
      | none => s
    { s1 with rafScheduled := false }

/-- `flush()`: cancel the RAF and apply any pending viewport synchronously. -/
def ViewportBatcher.flush (s : ViewportBatcher) : ViewportBatcher :=
  let s0 := { s with rafScheduled := false }
  match s0.pendingViewport with
  | some v => { s0 with applied := s0.applied ++ [v], pendingViewport := none }
  | none => s0

/-- `destroy()`. -/
def ViewportBatcher.destroy (s : ViewportBatcher) : ViewportBatcher :=
  { s with rafScheduled := false, pendingViewport := none }

/-! ## Staggered resize observer

Model of `StaggeredResizeObserver` from
`packages/svelte/dist/lib/utils/staggeredResizeObserver.js`.  Elements
are identified by naturals; the wrapped `ResizeObserver` is modelled as
its set of observed elements plus an append-only log of the
`observe`/`unobserve` calls made on it. -/

inductive ObsCall where
  | observeCall : ℕ → ObsCall
  | unobserveCall : ℕ → ObsCall
deriving DecidableEq

structure ResizeObs where
  observed : List ℕ
  calls : List ObsCall
deriving DecidableEq

/-- `resizeObserver.observe(element)` of the wrapped observer. -/
def roObserve (r : ResizeObs) (e : ℕ) : ResizeObs :=
  { observed := if e ∈ r.observed then r.observed else r.observed ++ [e],
    calls := r.calls ++ [ObsCall.observeCall e] }

/-- `resizeObserver.unobserve(element)` of the wrapped observer: removing
an element that was never observed is a no-op on the observed set. -/
def roUnobserve (r : ResizeObs) (e : ℕ) : ResizeObs :=
  { observed := r.observed.filter (fun x => x ≠ e),
    calls := r.calls ++ [ObsCall.unobserveCall e] }

structure SRO where
  ro : ResizeObs
  pendingObserveList : List ℕ
  pendingObserveSet : List ℕ
  pendingUnobserve : List ℕ
  rafScheduled : Bool
  batchSize : ℕ
  listIndex : ℕ
deriving DecidableEq

/-- The constructor `new StaggeredResizeObserver(callback, batchSize)`. -/
def SRO.init (batchSize : ℕ) : SRO :=
  { ro := { observed := [], calls := [] }, pendingObserveList := [], pendingObserveSet := [],
    pendingUnobserve := [], rafScheduled := false, batchSize := batchSize, listIndex := 0 }

/-- `scheduleProcessing()`. -/
def SRO.scheduleProcessing (s : SRO) : SRO :=
  if s.rafScheduled = true then s else { s with rafScheduled := true }

/-- `observe(element)`: cancel a pending unobserve, else enqueue unless
already queued. -/
def SRO.observe (s : SRO) (e : ℕ) : SRO :=
  if e ∈ s.pendingUnobserve then
    { s with pendingUnobserve := s.pendingUnobserve.filter (fun x => x ≠ e) }
  else if e ∈ s.pendingObserveSet then s
  else
    ({ s with pendingObserveList := s.pendingObserveList ++ [e],
              pendingObserveSet := s.pendingObserveSet ++ [e] }).scheduleProcessing

/-- `unobserve(element)`: when still only enqueued, drop it from the queue
set (the list entry is skipped later); otherwise mark it for unobserve to
be processed in the next batch. -/
def SRO.unobserve (s : SRO) (e : ℕ) : SRO :=
  if e ∈ s.pendingObserveSet then
    { s with pendingObserveSet := s.pendingObserveSet.filter (fun x => x ≠ e) }
  else
    ({ s with pendingUnobserve :=
        if e ∈ s.pendingUnobserve then s.pendingUnobserve else s.pendingUnobserve ++ [e]
      }).scheduleProcessing

/-- The `while` loop of `processBatch`: advance `listIndex`, registering
each element still in the pending set, until `batchSize` registrations
were made or the list is exhausted.  Returns the new index, set, observer
and processed count. -/
def pbLoop (list : List ℕ) (idx : ℕ) (set : List ℕ) (ro : ResizeObs) (processed bs : ℕ) :
    ℕ × List ℕ × ResizeObs × ℕ :=
  if h : idx < list.length ∧ processed < bs then
    let e := list.get ⟨idx, h.1⟩
    if e ∈ set then
      pbLoop list (idx + 1) (set.filter (fun x => x ≠ e)) (roObserve ro e) (processed + 1) bs
    else pbLoop list (idx + 1) set ro processed bs
  else (idx, set, ro, processed)
termination_by list.length - idx
decreasing_by
  · omega
  · omega

/-- `processBatch()`: flush pending unobserves through the wrapped
observer first, then register one batch of queued elements, compact the
backing list, and re-schedule while elements remain queued. -/
def SRO.processBatch (s : SRO) : SRO :=
  let ro1 := s.pendingUnobserve.foldl roUnobserve s.ro
  let r := pbLoop s.pendingObserveList s.listIndex s.pendingObserveSet ro1 0 s.batchSize
  let s2 : SRO := { s with ro := r.2.2.1, pendingObserveSet := r.2.1, pendingUnobserve := [],
                           listIndex := r.1 }
  let s3 : SRO :=
    if s2.pendingObserveList.length ≤ s2.listIndex then
      { s2 with pendingObserveList := [], listIndex := 0 }
    else if 1000 < s2.listIndex then
      { s2 with pendingObserveList := s2.pendingObserveList.drop s2.listIndex, listIndex := 0 }
    else s2
  if s3.pendingObserveSet ≠ [] then s3.scheduleProcessing else s3

/-- The RAF callback wrapping `processBatch` (no-op when none scheduled). -/
def SRO.fireRaf (s : SRO) : SRO :=
  if s.rafScheduled = false then s
  else ({ s with rafScheduled := false }).processBatch

/-- `flush()`: process all unobserves, then register every still-queued
element from the current read index on, and clear the queue. -/
def SRO.flush (s : SRO) : SRO :=
  let s0 : SRO := { s with rafScheduled := false }
  let ro1 := s0.pendingUnobserve.foldl roUnobserve s0.ro
  let ro2 := (s0.pendingObserveList.drop s0.listIndex).foldl
    (fun r e => if e ∈ s0.pendingObserveSet then roObserve r e else r) ro1
  { s0 with ro := ro2, pendingUnobserve := [], pendingObserveList := [],
            pendingObserveSet := [], listIndex := 0 }

/-- `hasPending()`. -/
def SRO.hasPending (s : SRO) : Bool :=
  !s.pendingObserveSet.isEmpty || !s.pendingUnobserve.isEmpty

/-- `disconnect()`: cancel the RAF and clear all pending state (the
wrapped observer's `disconnect` empties its observed set). -/
def SRO.disconnect (s : SRO) : SRO :=
  { s with rafScheduled := false, pendingObserveList := [], pendingObserveSet := [],
           pendingUnobserve := [], listIndex := 0,
           ro := { observed := [], calls := s.ro.calls } }

/-- `updateConfig(options)` of the dist edge batcher. -/
def EdgeBatcher.updateConfig (s : EdgeBatcher) (threshold batchSize maxPanVelocity : Option ℚ) :
    EdgeBatcher :=
  { s with threshold := threshold.getD s.threshold,
           batchSize := batchSize.getD s.batchSize,
           maxPanVelocity := maxPanVelocity.getD s.maxPanVelocity }

/-- `reset()` of the dist edge batcher. -/
def EdgeBatcher.reset (s : EdgeBatcher) : EdgeBatcher :=
  { s with staleCheckScheduled := false, pendingEdges := [], renderedEdges := [],
           cachedReturnMap := none, dirty := true, lastViewportPos := none, lastUpdateTime := 0,
           currentVelocitySq := 0, isPanningFast := false }

/-- `destroy()` of the dist edge batcher. -/
def EdgeBatcher.destroy (s : EdgeBatcher) : EdgeBatcher :=
  { s with staleCheckScheduled := false, pendingEdges := [], renderedEdges := [],
           cachedReturnMap := none, dirty := true, lastViewportPos := none, lastUpdateTime := 0,
           currentVelocitySq := 0, isPanningFast := false }

/-- `Pending ∩ Rendered = ∅`. -/
def nbDisjoint (s : NodeBatcher) : Prop :=
  ∀ k, mapHas s.pendingNodes k = true → mapHas s.renderedNodes k = false

/-- Every key of `m` is a key of `vis`. -/
def keysSub (m vis : NMap) : Prop :=
  ∀ k, mapHas m k = true → mapHas vis k = true

/-- The key lists of both maps are duplicate-free (automatic for JS maps). -/
def nbKeysNodup (s : NodeBatcher) : Prop :=
  (mapKeys s.pendingNodes).Nodup ∧ (mapKeys s.renderedNodes).Nodup

/-- The state invariants of the node batcher relative to the visible set
of the most recent update. -/
def nbInv (s : NodeBatcher) (vis : NMap) : Prop :=
  nbDisjoint s ∧ keysSub s.renderedNodes vis ∧ keysSub s.pendingNodes vis ∧ nbKeysNodup s

/-- Every visible id is in Rendered or Pending. -/
def nbComplete (s : NodeBatcher) (vis : NMap) : Prop :=
  ∀ k, mapHas vis k = true → (mapHas s.renderedNodes k || mapHas s.pendingNodes k) = true

/-! ## Concrete states exercised by the claim theorems -/

/-- C1: node Rendered set is empty, so no edge endpoint is rendered. -/
def c1CanRender : EdgeItem → Bool :=
  fun e => mapHas ([] : NMap) e.source && mapHas ([] : NMap) e.target

def c1State : EdgeBatcherTS := { EdgeBatcherTS.init 1 1 with canRender := some c1CanRender }

def c1After : EdgeBatcherTS := (c1State.updateVisibleEdges [("e", ⟨"a", "b"⟩)] []).1

def c1wState : EdgeBatcherTS :=
  { EdgeBatcherTS.init 5 2 with pendingEdges := [("e", ⟨"a", "b"⟩)], rafScheduled := true,
                                canRender := some (fun _ => true) }

/-- C2: an update whose `previouslyRendered` argument contains ids that are
in neither the rendered nor the pending map. -/
def c2NodeStart : NodeBatcher := NodeBatcher.init 1 2 0

def c2Vis : NMap := [("a", 1), ("b", 2)]

def c2NodeAfter : NodeBatcher := (c2NodeStart.updateVisibleNodes c2Vis c2Vis none 0).1

def c2EdgeStart : EdgeBatcher := EdgeBatcher.init 1 5 0

def c2EdgeAfter : EdgeBatcher :=
  (c2EdgeStart.updateVisibleEdges [("e1", 1), ("e2", 2)] [] none 0).1

/-- C3/C4: queue six nodes with threshold 5, then lower the threshold to 0
via `updateConfig`, making a state with stale pending entries reachable. -/
def c3Vis6 : NMap := [("a", 1), ("b", 2), ("c", 3), ("d", 4), ("e", 5), ("f", 6)]

def c3s1 : NodeBatcher := ((NodeBatcher.init 5 2 0).updateVisibleNodes c3Vis6 [] none 0).1

def c3s2 : NodeBatcher := c3s1.updateConfig (some 0) none none

def c3s3 : NodeBatcher := (c3s2.updateVisibleNodes [("a", 1)] [] none 0).1

def c3s4 : NodeBatcher := (c3s3.updateVisibleNodes [] [] none 0).1

/-- C5: a scheduled batch step with batch size 0 makes no progress. -/
def c5Node : NodeBatcher :=
  { NodeBatcher.init 5 0 0 with pendingNodes := [("a", 1)], raf := some RafTask.batch }

def c5Edge : EdgeBatcherTS :=
  { EdgeBatcherTS.init 5 1 with pendingEdges := [("e", ⟨"a", "b"⟩)], rafScheduled := true,
                                canRender := some (fun _ => false) }

def c5w : NodeBatcher :=
  { NodeBatcher.init 5 1 0 with pendingNodes := [("a", 1), ("b", 2)],
                                renderedNodes := [("r", 7)], raf := some RafTask.batch }

/-- C6: a batch RAF is scheduled by a slow update, then a fast pan is
measured; the already-scheduled RAF still fires. -/
def c6s1 : NodeBatcher :=
  ((NodeBatcher.init 1 2 500).updateVisibleNodes [("a", 1), ("b", 2)] [] (some (0, 0)) 1000).1

def c6s2 : NodeBatcher :=
  (c6s1.updateVisibleNodes [("a", 1), ("b", 2)] [] (some (100, 0)) 1100).1

def c6w : NodeBatcher :=
  { NodeBatcher.init 1 2 500 with staleCheckScheduled := true, pendingNodes := [("a", 1)],
                                  isPanningFast := true }

/-- C8: `updateVisibleNodes` called after `destroy()` repopulates state. -/
def c8After : NodeBatcher :=
  ((NodeBatcher.init 5 2 0).destroy.updateVisibleNodes [("a", 1)] [] none 0).1

/-- C9: observe element 7, flush so it is registered, then unobserve it. -/
def c9s2 : SRO := ((SRO.init 5).observe 7).flush

def c9s3 : SRO := c9s2.unobserve 7

def c9w : SRO := (SRO.init 5).observe 3

/-- C10: queue six edges with threshold 5 and batch size 1 (one admitted
immediately, five stay pending), then lower the threshold to 0. -/
def c10Vis6 : NMap := [("e1", 1), ("e2", 2), ("e3", 3), ("e4", 4), ("e5", 5), ("e6", 6)]

def c10s1 : EdgeBatcher := ((EdgeBatcher.init 5 1 0).updateVisibleEdges c10Vis6 [] none 0).1

def c10s2 : EdgeBatcher := c10s1.updateConfig (some 0) none none

theorem mapHas_nil {α : Type} (k : String) : mapHas ([] : List (String × α)) k = false := rfl

theorem mapHas_cons {α : Type} (p : String × α) (m : List (String × α)) (k : String) :
    mapHas (p :: m) k = (p.1 == k || mapHas m k) := by
  simp [mapHas]

theorem mapHas_append {α : Type} (m m' : List (String × α)) (k : String) :
    mapHas (m ++ m') k = (mapHas m k || mapHas m' k) := by
  simp [mapHas]

theorem mapHas_of_mem {α : Type} {m : List (String × α)} {p : String × α} (h : p ∈ m) :
    mapHas m p.1 = true :=
  List.any_eq_true.mpr ⟨p, h, by simp⟩

theorem mapHas_iff_exists {α : Type} {m : List (String × α)} {k : String} :
    mapHas m k = true ↔ ∃ p ∈ m, p.1 = k := by
  unfold mapHas
  rw [List.any_eq_true]
  constructor
  · rintro ⟨p, hp, he⟩
    exact ⟨p, hp, by simpa using he⟩
  · rintro ⟨p, hp, he⟩
    exact ⟨p, hp, by simpa using he⟩

theorem mem_keys_of_mapHas {α : Type} {m : List (String × α)} {k : String}
    (h : mapHas m k = true) : k ∈ mapKeys m := by
  rcases mapHas_iff_exists.mp h with ⟨p, hp, hk⟩
  exact hk ▸ List.mem_map_of_mem Prod.fst hp

theorem mapHas_of_mem_keys {α : Type} {m : List (String × α)} {k : String}
    (h : k ∈ mapKeys m) : mapHas m k = true := by
  rcases List.mem_map.mp h with ⟨p, hp, hk⟩
  exact hk ▸ mapHas_of_mem hp

theorem mapHas_map_replace {α : Type} (m : List (String × α)) (k' k : String) (v : α) :
    mapHas (m.map (fun p => if p.1 == k' then (k', v) else p)) k = mapHas m k := by
  induction m with
  | nil => rfl
  | cons p rest ih =>
    simp only [List.map_cons]
    rw [mapHas_cons, mapHas_cons, ih]
    by_cases hp : (p.1 == k') = true
    · have hpe : p.1 = k' := by simpa using hp
      simp [hp, hpe]
    · simp [hp]

theorem mapHas_mapSet {α : Type} (m : List (String × α)) (k' k : String) (v : α) :
    mapHas (mapSet m k' v) k = (mapHas m k || k' == k) := by
  by_cases h : mapHas m k' = true
  · rw [mapSet, if_pos h, mapHas_map_replace]
    by_cases hk : (k' == k) = true
    · have : k' = k := by simpa using hk
      subst this
      simp [h, hk]
    · simp [hk]
  · rw [mapSet, if_neg h, mapHas_append]
    have : mapHas [(k', v)] k = (k' == k) := by simp [mapHas]
    rw [this]

theorem mapKeys_mapSet_of_has {α : Type} {m : List (String × α)} {k : String} (v : α)
    (h : mapHas m k = true) : mapKeys (mapSet m k v) = mapKeys m := by
  rw [mapSet, if_pos h]
  unfold mapKeys
  rw [List.map_map]
  apply List.map_congr_left
  intro p _
  by_cases hp : (p.1 == k) = true
  · have : p.1 = k := by simpa using hp
    simp [Function.comp, hp, this]
  · simp [Function.comp, hp]

theorem nodup_keys_mapSet {α : Type} {m : List (String × α)} {k : String} {v : α}
    (h : (mapKeys m).Nodup) : (mapKeys (mapSet m k v)).Nodup := by
  by_cases hk : mapHas m k = true
  · rw [mapKeys_mapSet_of_has v hk]; exact h
  · rw [mapSet, if_neg hk]
    have hke : mapKeys (m ++ [(k, v)]) = mapKeys m ++ [k] := by simp [mapKeys]
    rw [hke]
    have hnk : k ∉ mapKeys m := fun hmem => hk (mapHas_of_mem_keys hmem)
    simp [List.nodup_append, h, hnk]

theorem mapHas_filterKey {α : Type} (m : List (String × α)) (q : String → Bool) (k : String) :
    mapHas (m.filter (fun p => q p.1)) k = (mapHas m k && q k) := by
  induction m with
  | nil => simp [mapHas]
  | cons p rest ih =>
    by_cases hq : q p.1 = true
    · rw [List.filter_cons_of_pos (by simpa using hq)]
      rw [mapHas_cons, mapHas_cons, ih]
      by_cases hp : (p.1 == k) = true
      · have hpe : p.1 = k := by simpa using hp
        simp [hp, ← hpe, hq]
      · simp [hp]
    · rw [List.filter_cons_of_neg (by simpa using hq)]
      rw [ih, mapHas_cons]
      by_cases hp : (p.1 == k) = true
      · have hpe : p.1 = k := by simpa using hp
        subst hpe
        have hqf : q p.1 = false := by simpa using hq
        simp [hp, hqf]
      · simp [hp]

theorem nodup_keys_filter {α : Type} {m : List (String × α)} (q : String × α → Bool)
    (h : (mapKeys m).Nodup) : (mapKeys (m.filter q)).Nodup :=
  List.Nodup.sublist (List.Sublist.map Prod.fst (List.filter_sublist m)) h

theorem mapHas_setAll {α : Type} (m l : List (String × α)) (k : String) :
    mapHas (setAll m l) k = (mapHas m k || mapHas l k) := by
  induction l generalizing m with
  | nil => simp [setAll, mapHas]
  | cons p rest ih =>
    show mapHas (setAll (mapSet m p.1 p.2) rest) k = _
    rw [ih, mapHas_mapSet, mapHas_cons, Bool.or_assoc]

theorem nodup_keys_setAll {α : Type} {m : List (String × α)} (l : List (String × α))
    (h : (mapKeys m).Nodup) : (mapKeys (setAll m l)).Nodup := by
  induction l generalizing m with
  | nil => exact h
  | cons p rest ih => exact ih (nodup_keys_mapSet h)

theorem mem_mapSet {α : Type} {m : List (String × α)} {k : String} {v : α} {p : String × α}
    (h : p ∈ mapSet m k v) : p ∈ m ∨ p = (k, v) := by
  by_cases hk : mapHas m k = true
  · rw [mapSet, if_pos hk] at h
    rcases List.mem_map.mp h with ⟨q, hq, hqe⟩
    by_cases hqk : (q.1 == k) = true
    · rw [if_pos hqk] at hqe
      right; exact hqe.symm
    · rw [if_neg (by simpa using hqk)] at hqe
      left; exact hqe ▸ hq
  · rw [mapSet, if_neg hk] at h
    simpa using h

theorem mem_setAll {α : Type} {m l : List (String × α)} {p : String × α}
    (h : p ∈ setAll m l) : p ∈ m ∨ p ∈ l := by
  induction l generalizing m with
  | nil => exact Or.inl h
  | cons q rest ih =>
    rcases ih (m := mapSet m q.1 q.2) h with h1 | h1
    · rcases mem_mapSet h1 with h2 | h2
      · exact Or.inl h2
      · right; rw [h2]; exact List.mem_cons_self _ _
    · right; exact List.mem_cons_of_mem _ h1

theorem mapHas_eq_of_keys_eq {α β : Type} {m : List (String × α)} {m' : List (String × β)}
    (h : mapKeys m = mapKeys m') (k : String) : mapHas m k = mapHas m' k := by
  cases h1 : mapHas m k with
  | true =>
    exact (mapHas_of_mem_keys (h ▸ mem_keys_of_mapHas h1)).symm
  | false =>
    cases h2 : mapHas m' k with
    | true =>
      rw [← h1]
      exact (mapHas_of_mem_keys (h ▸ mem_keys_of_mapHas h2)).symm ▸ rfl
    | false => rfl

theorem refreshAll_keys (vis : NMap) : ∀ rend pend hc,
    mapKeys (refreshAll vis rend pend hc).1 = mapKeys rend ∧
    mapKeys (refreshAll vis rend pend hc).2.1 = mapKeys pend := by
  induction vis with
  | nil => intro rend pend hc; exact ⟨rfl, rfl⟩
  | cons p rest ih =>
    intro rend pend hc
    obtain ⟨k, v⟩ := p
    unfold refreshAll
    dsimp only
    by_cases hr : mapHas rend k = true
    · by_cases hg : mapGet rend k = some v
      · simp only [hr, hg, if_pos, if_true]
        by_cases hp : mapHas pend k = true
        · by_cases hpg : mapGet pend k = some v
          · simp only [hp, hpg, if_pos, if_true]
            exact ih rend pend hc
          · simp only [hp, hpg, if_pos, if_neg, if_true, if_false]
            have := ih rend (mapSet pend k v) true
            exact ⟨this.1, this.2.trans (mapKeys_mapSet_of_has v hp)⟩
        · simp only [hp, if_neg, if_false]
          exact ih rend pend hc
      · simp only [hr, hg, if_pos, if_neg, if_true, if_false]
        by_cases hp : mapHas pend k = true
        · by_cases hpg : mapGet pend k = some v
          · simp only [hp, hpg, if_pos, if_true]
            have := ih (mapSet rend k v) pend true
            exact ⟨this.1.trans (mapKeys_mapSet_of_has v hr), this.2⟩
          · simp only [hp, hpg, if_pos, if_neg, if_true, if_false]
            have := ih (mapSet rend k v) (mapSet pend k v) true
            exact ⟨this.1.trans (mapKeys_mapSet_of_has v hr),
                   this.2.trans (mapKeys_mapSet_of_has v hp)⟩
        · simp only [hp, if_neg, if_false]
          have := ih (mapSet rend k v) pend true
          exact ⟨this.1.trans (mapKeys_mapSet_of_has v hr), this.2⟩
    · simp only [hr, if_neg, if_false]
      by_cases hp : mapHas pend k = true
      · by_cases hpg : mapGet pend k = some v
        · simp only [hp, hpg, if_pos, if_true]
          exact ih rend pend hc
        · simp only [hp, hpg, if_pos, if_neg, if_true, if_false]
          have := ih rend (mapSet pend k v) true
          exact ⟨this.1, this.2.trans (mapKeys_mapSet_of_has v hp)⟩
      · simp only [hp, if_neg, if_false]
        exact ih rend pend hc

theorem scheduleNextBatch_cases (s : NodeBatcher) :
    s.scheduleNextBatch = s ∨ s.scheduleNextBatch = { s with raf := some RafTask.batch } := by
  unfold NodeBatcher.scheduleNextBatch
  split
  · exact Or.inl rfl
  · exact Or.inr rfl

theorem scheduleStale_cases (s : NodeBatcher) :
    s.scheduleStaleVelocityCheck = s ∨
    s.scheduleStaleVelocityCheck = { s with staleCheckScheduled := true } := by
  unfold NodeBatcher.scheduleStaleVelocityCheck
  split
  · exact Or.inl rfl
  · exact Or.inr rfl

theorem scheduleNextBatch_pendingNodes (s : NodeBatcher) :
    s.scheduleNextBatch.pendingNodes = s.pendingNodes := by
  rcases scheduleNextBatch_cases s with h | h <;> rw [h]

theorem scheduleNextBatch_renderedNodes (s : NodeBatcher) :
    s.scheduleNextBatch.renderedNodes = s.renderedNodes := by
  rcases scheduleNextBatch_cases s with h | h <;> rw [h]

theorem scheduleNextBatch_isPanningFast (s : NodeBatcher) :
    s.scheduleNextBatch.isPanningFast = s.isPanningFast := by
  rcases scheduleNextBatch_cases s with h | h <;> rw [h]

theorem scheduleNextBatch_isFlushing (s : NodeBatcher) :
    s.scheduleNextBatch.isFlushing = s.isFlushing := by
  rcases scheduleNextBatch_cases s with h | h <;> rw [h]

theorem scheduleNextBatch_dirty (s : NodeBatcher) :
    s.scheduleNextBatch.dirty = s.dirty := by
  rcases scheduleNextBatch_cases s with h | h <;> rw [h]

theorem scheduleNextBatch_cachedReturnMap (s : NodeBatcher) :
    s.scheduleNextBatch.cachedReturnMap = s.cachedReturnMap := by
  rcases scheduleNextBatch_cases s with h | h <;> rw [h]

theorem scheduleStale_pendingNodes (s : NodeBatcher) :
    s.scheduleStaleVelocityCheck.pendingNodes = s.pendingNodes := by
  rcases scheduleStale_cases s with h | h <;> rw [h]

theorem scheduleStale_renderedNodes (s : NodeBatcher) :
    s.scheduleStaleVelocityCheck.renderedNodes = s.renderedNodes := by
  rcases scheduleStale_cases s with h | h <;> rw [h]

theorem scheduleStale_isPanningFast (s : NodeBatcher) :
    s.scheduleStaleVelocityCheck.isPanningFast = s.isPanningFast := by
  rcases scheduleStale_cases s with h | h <;> rw [h]

theorem scheduleStale_isFlushing (s : NodeBatcher) :
    s.scheduleStaleVelocityCheck.isFlushing = s.isFlushing := by
  rcases scheduleStale_cases s with h | h <;> rw [h]

theorem scheduleStale_raf (s : NodeBatcher) :
    s.scheduleStaleVelocityCheck.raf = s.raf := by
  rcases scheduleStale_cases s with h | h <;> rw [h]

theorem scheduleStale_dirty (s : NodeBatcher) :
    s.scheduleStaleVelocityCheck.dirty = s.dirty := by
  rcases scheduleStale_cases s with h | h <;> rw [h]

theorem scheduleStale_cachedReturnMap (s : NodeBatcher) :
    s.scheduleStaleVelocityCheck.cachedReturnMap = s.cachedReturnMap := by
  rcases scheduleStale_cases s with h | h <;> rw [h]

theorem velocityStep_stable (s : NodeBatcher) (pos : Option (ℚ × ℚ)) (now : ℚ) :
    (s.velocityStep pos now).pendingNodes = s.pendingNodes ∧
    (s.velocityStep pos now).renderedNodes = s.renderedNodes ∧
    (s.velocityStep pos now).threshold = s.threshold ∧
    (s.velocityStep pos now).raf = s.raf ∧
    (s.velocityStep pos now).isFlushing = s.isFlushing ∧
    (s.velocityStep pos now).dirty = s.dirty ∧
    (s.velocityStep pos now).cachedReturnMap = s.cachedReturnMap ∧
    (s.velocityStep pos now).accumulator = s.accumulator ∧
    (s.velocityStep pos now).batchSize = s.batchSize ∧
    (s.velocityStep pos now).staleCheckScheduled = s.staleCheckScheduled := by
  cases pos with
  | none => exact ⟨rfl, rfl, rfl, rfl, rfl, rfl, rfl, rfl, rfl, rfl⟩
  | some p =>
    unfold NodeBatcher.velocityStep
    dsimp only
    split
    · split
      · split
        · split
          · exact ⟨rfl, rfl, rfl, rfl, rfl, rfl, rfl, rfl, rfl, rfl⟩
          · exact ⟨rfl, rfl, rfl, rfl, rfl, rfl, rfl, rfl, rfl, rfl⟩
        · exact ⟨rfl, rfl, rfl, rfl, rfl, rfl, rfl, rfl, rfl, rfl⟩
      · exact ⟨rfl, rfl, rfl, rfl, rfl, rfl, rfl, rfl, rfl, rfl⟩
    · exact ⟨rfl, rfl, rfl, rfl, rfl, rfl, rfl, rfl, rfl, rfl⟩

theorem refreshAll_fst_has (vis rend pend : NMap) (hc : Bool) (k : String) :
    mapHas (refreshAll vis rend pend hc).1 k = mapHas rend k :=
  mapHas_eq_of_keys_eq (refreshAll_keys vis rend pend hc).1 k

theorem refreshAll_snd_has (vis rend pend : NMap) (hc : Bool) (k : String) :
    mapHas (refreshAll vis rend pend hc).2.1 k = mapHas pend k :=
  mapHas_eq_of_keys_eq (refreshAll_keys vis rend pend hc).2 k

theorem progressiveKick_pendingNodes (t : NodeBatcher) :
    t.progressiveKick.pendingNodes = t.pendingNodes := by
  unfold NodeBatcher.progressiveKick
  split
  · rw [scheduleNextBatch_pendingNodes]
  · split
    · rw [scheduleStale_pendingNodes]
    · rfl

theorem progressiveKick_renderedNodes (t : NodeBatcher) :
    t.progressiveKick.renderedNodes = t.renderedNodes := by
  unfold NodeBatcher.progressiveKick
  split
  · rw [scheduleNextBatch_renderedNodes]
  · split
    · rw [scheduleStale_renderedNodes]
    · rfl

theorem progressiveKick_isPanningFast (t : NodeBatcher) :
    t.progressiveKick.isPanningFast = t.isPanningFast := by
  unfold NodeBatcher.progressiveKick
  split
  · rw [scheduleNextBatch_isPanningFast]
  · split
    · rw [scheduleStale_isPanningFast]
    · rfl

theorem progressiveKick_raf_cases (t : NodeBatcher) :
    t.progressiveKick.raf = t.raf ∨
    (t.progressiveKick.raf = some RafTask.batch ∧ t.isPanningFast = false) := by
  unfold NodeBatcher.progressiveKick
  split
  · next hcond =>
    rcases scheduleNextBatch_cases t with h | h
    · rw [h]; exact Or.inl rfl
    · rw [h]; exact Or.inr ⟨rfl, hcond.2⟩
  · split
    · rw [scheduleStale_raf]; exact Or.inl rfl
    · exact Or.inl rfl

theorem velocityKick_pendingNodes (t : NodeBatcher) :
    t.velocityKick.pendingNodes = t.pendingNodes := by
  unfold NodeBatcher.velocityKick
  split
  · rw [scheduleNextBatch_pendingNodes]
  · rfl

theorem velocityKick_renderedNodes (t : NodeBatcher) :
    t.velocityKick.renderedNodes = t.renderedNodes := by
  unfold NodeBatcher.velocityKick
  split
  · rw [scheduleNextBatch_renderedNodes]
  · rfl

theorem velocityKick_isPanningFast (t : NodeBatcher) :
    t.velocityKick.isPanningFast = t.isPanningFast := by
  unfold NodeBatcher.velocityKick
  split
  · rw [scheduleNextBatch_isPanningFast]
  · rfl

theorem velocityKick_raf_cases (t : NodeBatcher) :
    t.velocityKick.raf = t.raf ∨
    (t.velocityKick.raf = some RafTask.batch ∧ t.isPanningFast = false) := by
  unfold NodeBatcher.velocityKick
  split
  · next hcond =>
    rcases scheduleNextBatch_cases t with h | h
    · rw [h]; exact Or.inl rfl
    · rw [h]; exact Or.inr ⟨rfl, hcond.2.1⟩
  · exact Or.inl rfl

theorem core_pendingNodes_has (s : NodeBatcher) (vis prev : NMap) (k : String) :
    mapHas (s.core vis prev).pendingNodes k =
      ((mapHas s.pendingNodes k && mapHas vis k) ||
        (decide (((s.newlyVisibleOf vis prev).length : ℚ) > s.threshold)
          && mapHas (s.newlyVisibleOf vis prev) k)) := by
  unfold NodeBatcher.core
  dsimp only
  rw [apply_ite NodeBatcher.pendingNodes]
  dsimp only
  rw [ite_self]
  rw [velocityKick_pendingNodes]
  by_cases hbig : (((s.newlyVisibleOf vis prev).length : ℚ) > s.threshold)
  · rw [if_pos hbig]
    dsimp only
    rw [progressiveKick_pendingNodes]
    dsimp only
    rw [mapHas_setAll, refreshAll_snd_has, mapHas_filterKey]
    simp [hbig]
  · rw [if_neg hbig]
    by_cases hnv : 0 < (s.newlyVisibleOf vis prev).length
    · rw [if_pos hnv]
      dsimp only
      rw [refreshAll_snd_has, mapHas_filterKey]
      simp [hbig]
    · rw [if_neg hnv]
      dsimp only
      rw [refreshAll_snd_has, mapHas_filterKey]
      simp [hbig]

theorem core_renderedNodes_has (s : NodeBatcher) (vis prev : NMap) (k : String) :
    mapHas (s.core vis prev).renderedNodes k =
      ((mapHas s.renderedNodes k && mapHas vis k) ||
        (!decide (((s.newlyVisibleOf vis prev).length : ℚ) > s.threshold)
          && mapHas (s.newlyVisibleOf vis prev) k)) := by
  unfold NodeBatcher.core
  dsimp only
  rw [apply_ite NodeBatcher.renderedNodes]
  dsimp only
  rw [ite_self]
  rw [velocityKick_renderedNodes]
  by_cases hbig : (((s.newlyVisibleOf vis prev).length : ℚ) > s.threshold)
  · rw [if_pos hbig]
    dsimp only
    rw [progressiveKick_renderedNodes]
    dsimp only
    rw [refreshAll_fst_has, mapHas_filterKey]
    simp [hbig]
  · rw [if_neg hbig]
    by_cases hnv : 0 < (s.newlyVisibleOf vis prev).length
    · rw [if_pos hnv]
      dsimp only
      rw [mapHas_setAll, refreshAll_fst_has, mapHas_filterKey]
      simp [hbig]
    · rw [if_neg hnv]
      dsimp only
      rw [refreshAll_fst_has, mapHas_filterKey]
      have hempty : (s.newlyVisibleOf vis prev) = [] :=
        List.length_eq_zero.mp (Nat.eq_zero_of_not_pos hnv)
      simp [hbig, hempty, mapHas]

theorem newlyVisibleOf_has (s : NodeBatcher) (vis prev : NMap) (k : String) :
    mapHas (s.newlyVisibleOf vis prev) k =
      (mapHas vis k && (!(mapHas prev k) && !(mapHas s.renderedNodes k)
        && !(mapHas s.pendingNodes k))) := by
  unfold NodeBatcher.newlyVisibleOf
  exact mapHas_filterKey vis
    (fun key => !(mapHas prev key) && !(mapHas s.renderedNodes key)
      && !(mapHas s.pendingNodes key)) k

theorem newlyVisibleOf_congr {s s' : NodeBatcher} (h1 : s.renderedNodes = s'.renderedNodes)
    (h2 : s.pendingNodes = s'.pendingNodes) (vis prev : NMap) :
    s.newlyVisibleOf vis prev = s'.newlyVisibleOf vis prev := by
  unfold NodeBatcher.newlyVisibleOf
  rw [h1, h2]

theorem updateVisibleNodes_pendingNodes_has (s : NodeBatcher) (vis prev : NMap)
    (pos : Option (ℚ × ℚ)) (now : ℚ) (k : String) (h : s.threshold ≠ 0) :
    mapHas (s.updateVisibleNodes vis prev pos now).1.pendingNodes k =
      ((mapHas s.pendingNodes k && mapHas vis k) ||
        (decide (((s.newlyVisibleOf vis prev).length : ℚ) > s.threshold)
          && mapHas (s.newlyVisibleOf vis prev) k)) := by
  obtain ⟨hp, hr, ht, -⟩ := velocityStep_stable s pos now
  unfold NodeBatcher.updateVisibleNodes
  rw [if_neg (ht ▸ h)]
  dsimp only
  rw [core_pendingNodes_has,
      newlyVisibleOf_congr (s := s.velocityStep pos now) hr hp vis prev, hp, ht]

theorem updateVisibleNodes_renderedNodes_has (s : NodeBatcher) (vis prev : NMap)
    (pos : Option (ℚ × ℚ)) (now : ℚ) (k : String) (h : s.threshold ≠ 0) :
    mapHas (s.updateVisibleNodes vis prev pos now).1.renderedNodes k =
      ((mapHas s.renderedNodes k && mapHas vis k) ||
        (!decide (((s.newlyVisibleOf vis prev).length : ℚ) > s.threshold)
          && mapHas (s.newlyVisibleOf vis prev) k)) := by
  obtain ⟨hp, hr, ht, -⟩ := velocityStep_stable s pos now
  unfold NodeBatcher.updateVisibleNodes
  rw [if_neg (ht ▸ h)]
  dsimp only
  rw [core_renderedNodes_has,
      newlyVisibleOf_congr (s := s.velocityStep pos now) hr hp vis prev, hr, ht]

theorem updateVisibleNodes_zero (s : NodeBatcher) (vis prev : NMap)
    (pos : Option (ℚ × ℚ)) (now : ℚ) (h : s.threshold = 0) :
    (s.updateVisibleNodes vis prev pos now).1.renderedNodes = vis ∧
    (s.updateVisibleNodes vis prev pos now).1.pendingNodes = s.pendingNodes := by
  obtain ⟨hp, hr, ht, -⟩ := velocityStep_stable s pos now
  unfold NodeBatcher.updateVisibleNodes
  rw [if_pos (ht.trans h)]
  exact ⟨rfl, hp⟩

theorem admitGo_pending_sublist (pending : NMap) : ∀ rendered added limit,
    (admitGo pending rendered added limit).1.Sublist pending := by
  induction pending with
  | nil => intro rendered added limit; exact List.Sublist.refl _
  | cons p rest ih =>
    intro rendered added limit
    obtain ⟨k, v⟩ := p
    unfold admitGo
    split
    · exact List.Sublist.refl _
    · exact List.Sublist.cons _ (ih (mapSet rendered k v) (added + 1) limit)

theorem admitGo_pending_length_lt (pending : NMap) :
    ∀ (rendered : NMap) (added : ℕ) (limit : ℚ),
    pending ≠ [] → (added : ℚ) < limit →
    (admitGo pending rendered added limit).1.length < pending.length := by
  intro rendered added limit hne hlt
  match pending with
  | [] => exact absurd rfl hne
  | (k, v) :: rest =>
    unfold admitGo
    rw [if_neg (not_le.mpr hlt)]
    calc (admitGo rest (mapSet rendered k v) (added + 1) limit).1.length
        ≤ rest.length := (admitGo_pending_sublist rest _ _ _).length_le
      _ < ((k, v) :: rest).length := by simp

theorem admitGo_rendered_mono (pending : NMap) : ∀ rendered added limit k,
    mapHas rendered k = true → mapHas (admitGo pending rendered added limit).2.1 k = true := by
  induction pending with
  | nil => intro rendered added limit k h; exact h
  | cons p rest ih =>
    intro rendered added limit k h
    obtain ⟨k', v⟩ := p
    unfold admitGo
    split
    · exact h
    · exact ih (mapSet rendered k' v) (added + 1) limit k
        (by rw [mapHas_mapSet, h, Bool.true_or])

theorem admitGo_rendered_sub (pending : NMap) : ∀ rendered added limit k,
    mapHas (admitGo pending rendered added limit).2.1 k = true →
    mapHas rendered k = true ∨ mapHas pending k = true := by
  induction pending with
  | nil => intro rendered added limit k h; exact Or.inl h
  | cons p rest ih =>
    intro rendered added limit k h
    obtain ⟨k', v⟩ := p
    unfold admitGo at h
    split at h
    · exact Or.inl h
    · rcases ih (mapSet rendered k' v) (added + 1) limit k h with h1 | h1
      · rw [mapHas_mapSet] at h1
        rcases Bool.or_eq_true_iff.mp h1 with h2 | h2
        · exact Or.inl h2
        · right; rw [mapHas_cons, h2, Bool.true_or]
      · right; rw [mapHas_cons, h1, Bool.or_true]

theorem admitGo_complete (pending : NMap) : ∀ rendered added limit k,
    mapHas pending k = true →
    mapHas (admitGo pending rendered added limit).1 k = true ∨
    mapHas (admitGo pending rendered added limit).2.1 k = true := by
  induction pending with
  | nil => intro rendered added limit k h; simp [mapHas] at h
  | cons p rest ih =>
    intro rendered added limit k h
    obtain ⟨k', v⟩ := p
    unfold admitGo
    split
    · exact Or.inl h
    · rw [mapHas_cons] at h
      rcases Bool.or_eq_true_iff.mp h with h1 | h1
      · right
        exact admitGo_rendered_mono rest _ _ _ k
          (by rw [mapHas_mapSet, h1, Bool.or_true])
      · exact ih (mapSet rendered k' v) (added + 1) limit k h1

theorem admitGo_rendered_new (pending : NMap) : ∀ rendered added limit k,
    (mapKeys pending).Nodup →
    mapHas (admitGo pending rendered added limit).2.1 k = true →
    mapHas (admitGo pending rendered added limit).1 k = true →
    mapHas rendered k = true := by
  induction pending with
  | nil => intro rendered added limit k _ h _; exact h
  | cons p rest ih =>
    intro rendered added limit k hnd hr hp
    obtain ⟨k', v⟩ := p
    have hnd2 : (k' :: mapKeys rest).Nodup := by simpa [mapKeys] using hnd
    have hnd' : (mapKeys rest).Nodup := (List.nodup_cons.mp hnd2).2
    have hk'new : k' ∉ mapKeys rest := (List.nodup_cons.mp hnd2).1
    unfold admitGo at hr hp
    split at hr
    · next hstop =>
      rw [if_pos hstop] at hp
      exact hr
    · next hstop =>
      rw [if_neg hstop] at hp
      have := ih (mapSet rendered k' v) (added + 1) limit k hnd' hr hp
      rw [mapHas_mapSet] at this
      rcases Bool.or_eq_true_iff.mp this with h1 | h1
      · exact h1
      · exfalso
        have hkk : k' = k := by simpa using h1
        subst hkk
        have hsub : (admitGo rest (mapSet rendered k' v) (added + 1) limit).1.Sublist rest :=
          admitGo_pending_sublist rest _ _ _
        have : k' ∈ mapKeys rest := by
          have hmem := mem_keys_of_mapHas hp
          have : mapKeys (admitGo rest (mapSet rendered k' v) (added + 1) limit).1 ⊆
              mapKeys rest := fun x hx => (List.Sublist.map Prod.fst hsub).subset hx
          exact this hmem
        exact hk'new this

theorem admitGo_nodup_pending (pending : NMap) : ∀ rendered added limit,
    (mapKeys pending).Nodup → (mapKeys (admitGo pending rendered added limit).1).Nodup :=
  fun rendered added limit h =>
    List.Nodup.sublist (List.Sublist.map Prod.fst (admitGo_pending_sublist pending rendered added limit)) h

theorem admitGo_nodup_rendered (pending : NMap) : ∀ rendered added limit,
    (mapKeys rendered).Nodup → (mapKeys (admitGo pending rendered added limit).2.1).Nodup := by
  induction pending with
  | nil => intro rendered added limit h; exact h
  | cons p rest ih =>
    intro rendered added limit h
    obtain ⟨k, v⟩ := p
    unfold admitGo
    split
    · exact h
    · exact ih (mapSet rendered k v) (added + 1) limit (nodup_keys_mapSet h)

theorem scheduleNextBatch_accumulator (s : NodeBatcher) :
    s.scheduleNextBatch.accumulator = s.accumulator := by
  rcases scheduleNextBatch_cases s with h | h <;> rw [h]

theorem batchBody_sets (s : NodeBatcher) :
    s.batchBody.pendingNodes =
      (admitGo s.pendingNodes s.renderedNodes 0 ((⌊s.accumulator + s.batchSize⌋ : ℤ) : ℚ)).1 ∧
    s.batchBody.renderedNodes =
      (admitGo s.pendingNodes s.renderedNodes 0 ((⌊s.accumulator + s.batchSize⌋ : ℤ) : ℚ)).2.1 := by
  unfold NodeBatcher.batchBody
  dsimp only
  split <;> split <;>
    simp [scheduleNextBatch_pendingNodes, scheduleNextBatch_renderedNodes]

theorem batchBody_accumulator (s : NodeBatcher) :
    s.batchBody.accumulator =
      s.accumulator + s.batchSize - (⌊s.accumulator + s.batchSize⌋ : ℤ) := by
  unfold NodeBatcher.batchBody
  dsimp only
  split <;> split <;> simp [scheduleNextBatch_accumulator]

theorem batchBody_raf_reschedule (s : NodeBatcher) (h : s.batchBody.pendingNodes ≠ []) :
    s.batchBody.raf = some RafTask.batch := by
  have hsets := (batchBody_sets s).1
  rw [hsets] at h
  unfold NodeBatcher.batchBody
  dsimp only
  rw [apply_ite NodeBatcher.pendingNodes]
  rw [ite_self, if_pos h]
  rw [apply_ite (fun t : NodeBatcher => t.scheduleNextBatch.raf)]
  unfold NodeBatcher.scheduleNextBatch
  dsimp only
  split
  · rw [if_neg (by simp [h])]
  · rw [if_neg (by simp [h])]

theorem flushGradually_sets (s : NodeBatcher) (b : ℚ) :
    (s.flushGradually b).pendingNodes = s.pendingNodes ∧
    (s.flushGradually b).renderedNodes = s.renderedNodes := by
  unfold NodeBatcher.flushGradually
  dsimp only
  split <;> exact ⟨rfl, rfl⟩

theorem gradualBody_sets (s : NodeBatcher) (b : ℚ) :
    (s.gradualBody b).pendingNodes = (admitGo s.pendingNodes s.renderedNodes 0 b).1 ∧
    (s.gradualBody b).renderedNodes = (admitGo s.pendingNodes s.renderedNodes 0 b).2.1 := by
  unfold NodeBatcher.gradualBody
  dsimp only
  split <;> split <;>
    simp [flushGradually_sets]

theorem flush_has (s : NodeBatcher) (k : String) :
    mapHas s.flush.renderedNodes k = (mapHas s.renderedNodes k || mapHas s.pendingNodes k) ∧
    s.flush.pendingNodes = [] := by
  unfold NodeBatcher.flush
  dsimp only
  split
  · next hpe =>
    rw [hpe]
    simp [mapHas]
  · exact ⟨mapHas_setAll _ _ k, rfl⟩

theorem ebVelocityStep_stable (s : EdgeBatcher) (pos : Option (ℚ × ℚ)) (now : ℚ) :
    (s.velocityStep pos now).pendingEdges = s.pendingEdges ∧
    (s.velocityStep pos now).renderedEdges = s.renderedEdges ∧
    (s.velocityStep pos now).threshold = s.threshold ∧
    (s.velocityStep pos now).batchSize = s.batchSize ∧
    (s.velocityStep pos now).dirty = s.dirty ∧
    (s.velocityStep pos now).cachedReturnMap = s.cachedReturnMap := by
  cases pos with
  | none => exact ⟨rfl, rfl, rfl, rfl, rfl, rfl⟩
  | some p =>
    unfold EdgeBatcher.velocityStep
    dsimp only
    split
    · split
      · split
        · split
          · exact ⟨rfl, rfl, rfl, rfl, rfl, rfl⟩
          · exact ⟨rfl, rfl, rfl, rfl, rfl, rfl⟩
        · exact ⟨rfl, rfl, rfl, rfl, rfl, rfl⟩
      · exact ⟨rfl, rfl, rfl, rfl, rfl, rfl⟩
    · exact ⟨rfl, rfl, rfl, rfl, rfl, rfl⟩

theorem edgeAdmit_rendered_not_vis (pending : NMap) :
    ∀ (rendered vis : NMap) (added : ℕ) (bs : ℚ) (hc : Bool) (k : String),
    mapHas vis k = false → mapHas rendered k = false →
    mapHas (edgeAdmit pending rendered vis added bs hc).2.1 k = false := by
  induction pending with
  | nil => intro rendered vis added bs hc k _ hr; exact hr
  | cons p rest ih =>
    intro rendered vis added bs hc k hv hr
    obtain ⟨k', v⟩ := p
    unfold edgeAdmit
    split
    · exact hr
    · split
      · next hk' =>
        apply ih _ _ _ _ _ _ hv
        rw [mapHas_mapSet, hr, Bool.false_or]
        by_cases he : (k' == k) = true
        · have : k' = k := by simpa using he
          subst this
          rw [hk'] at hv
          exact absurd hv (by simp)
        · simpa using he
      · exact ih _ _ _ _ _ _ hv hr

theorem edgeAdmit_pending_sub (pending : NMap) :
    ∀ (rendered vis : NMap) (added : ℕ) (bs : ℚ) (hc : Bool) (k : String),
    mapHas (edgeAdmit pending rendered vis added bs hc).1 k = true →
    mapHas pending k = true := by
  induction pending with
  | nil => intro rendered vis added bs hc k h; exact h
  | cons p rest ih =>
    intro rendered vis added bs hc k h
    obtain ⟨k', v⟩ := p
    unfold edgeAdmit at h
    split at h
    · exact h
    · split at h
      · rw [mapHas_cons]
        rw [ih _ _ _ _ _ _ h, Bool.or_true]
      · rw [mapHas_cons]
        rw [ih _ _ _ _ _ _ h, Bool.or_true]

theorem refreshEB_keys (vis : NMap) : ∀ rend hc,
    mapKeys (refreshEB vis rend hc).1 = mapKeys rend := by
  induction vis with
  | nil => intro rend hc; rfl
  | cons p rest ih =>
    intro rend hc
    obtain ⟨k, v⟩ := p
    unfold refreshEB
    dsimp only
    by_cases hr : mapHas rend k = true
    · by_cases hg : mapGet rend k = some v
      · simp only [hr, hg, if_pos, if_true]
        exact ih rend hc
      · simp only [hr, hg, if_pos, if_neg, if_true, if_false]
        exact (ih (mapSet rend k v) true).trans (mapKeys_mapSet_of_has v hr)
    · simp only [hr, if_neg, if_false]
      exact ih rend hc

theorem ebStale_cases (s : EdgeBatcher) :
    s.scheduleStaleVelocityCheck = s ∨
    s.scheduleStaleVelocityCheck = { s with staleCheckScheduled := true } := by
  unfold EdgeBatcher.scheduleStaleVelocityCheck
  split
  · exact Or.inl rfl
  · exact Or.inr rfl

theorem ebStale_pendingEdges (s : EdgeBatcher) :
    s.scheduleStaleVelocityCheck.pendingEdges = s.pendingEdges := by
  rcases ebStale_cases s with h | h <;> rw [h]

theorem ebStale_renderedEdges (s : EdgeBatcher) :
    s.scheduleStaleVelocityCheck.renderedEdges = s.renderedEdges := by
  rcases ebStale_cases s with h | h <;> rw [h]

theorem refreshTS_keys (vis : EMap) : ∀ rend,
    mapKeys (refreshTS vis rend) = mapKeys rend := by
  induction vis with
  | nil => intro rend; rfl
  | cons p rest ih =>
    intro rend
    show mapKeys (refreshTS rest (if mapHas rend p.1 then mapSet rend p.1 p.2 else rend))
      = mapKeys rend
    by_cases hr : mapHas rend p.1 = true
    · rw [if_pos hr]
      exact (ih (mapSet rend p.1 p.2)).trans (mapKeys_mapSet_of_has p.2 hr)
    · rw [if_neg hr]
      exact ih rend

theorem tsSchedule_cases (s : EdgeBatcherTS) :
    s.scheduleNextBatch = s ∨ s.scheduleNextBatch = { s with rafScheduled := true } := by
  unfold EdgeBatcherTS.scheduleNextBatch
  split
  · exact Or.inl rfl
  · exact Or.inr rfl

theorem tsSchedule_pendingEdges (s : EdgeBatcherTS) :
    s.scheduleNextBatch.pendingEdges = s.pendingEdges := by
  rcases tsSchedule_cases s with h | h <;> rw [h]

theorem tsSchedule_renderedEdges (s : EdgeBatcherTS) :
    s.scheduleNextBatch.renderedEdges = s.renderedEdges := by
  rcases tsSchedule_cases s with h | h <;> rw [h]

theorem tsUpdate_not_vis (s : EdgeBatcherTS) (vis prev : EMap) (k : String)
    (hv : mapHas vis k = false) :
    mapHas (s.updateVisibleEdges vis prev).1.renderedEdges k = false ∧
    (s.threshold ≠ 0 → mapHas (s.updateVisibleEdges vis prev).1.pendingEdges k = false) := by
  have hnv : mapHas (vis.filter (fun p =>
      !(mapHas prev p.1) && !(mapHas s.renderedEdges p.1))) k = false := by
    rw [mapHas_filterKey vis
      (fun key => !(mapHas prev key) && !(mapHas s.renderedEdges key)) k, hv, Bool.false_and]
  have hrend1 : mapHas (s.renderedEdges.filter (fun p => mapHas vis p.1)) k = false := by
    rw [mapHas_filterKey s.renderedEdges (fun key => mapHas vis key) k, hv, Bool.and_false]
  have hpend1 : mapHas (s.pendingEdges.filter (fun p => mapHas vis p.1)) k = false := by
    rw [mapHas_filterKey s.pendingEdges (fun key => mapHas vis key) k, hv, Bool.and_false]
  have hrh : mapHas (refreshTS vis (s.renderedEdges.filter (fun p => mapHas vis p.1))) k
      = false := by
    rw [mapHas_eq_of_keys_eq (refreshTS_keys vis _) k]
    exact hrend1
  by_cases h0 : s.threshold = 0
  · constructor
    · unfold EdgeBatcherTS.updateVisibleEdges
      rw [if_pos h0]
      exact hv
    · intro h
      exact absurd h0 h
  · unfold EdgeBatcherTS.updateVisibleEdges
    rw [if_neg h0]
    dsimp only
    constructor
    · rw [apply_ite EdgeBatcherTS.renderedEdges, tsSchedule_renderedEdges]
      dsimp only
      split
      · exact hrh
      · rw [mapHas_setAll, hrh, hnv, Bool.or_self]
    · intro _
      rw [apply_ite EdgeBatcherTS.pendingEdges, tsSchedule_pendingEdges]
      dsimp only
      split
      · rw [mapHas_setAll, hpend1, hnv, Bool.or_self]
      · exact hpend1

theorem admitCR_rendered_mem (pending : EMap) :
    ∀ (rendered : EMap) (cr : Option (EdgeItem → Bool)) (added : ℕ) (limit : ℚ)
      (kv : String × EdgeItem),
    kv ∈ (admitCR pending rendered cr added limit).2.1 →
    kv ∈ rendered ∨ canRenderOk cr kv.2 = true := by
  induction pending with
  | nil => intro rendered cr added limit kv h; exact Or.inl h
  | cons p rest ih =>
    intro rendered cr added limit kv h
    obtain ⟨k, e⟩ := p
    unfold admitCR at h
    split at h
    · exact Or.inl h
    · split at h
      · exact ih rendered cr added limit kv h
      · next hok =>
        rcases ih (mapSet rendered k e) cr (added + 1) limit kv h with h1 | h1
        · rcases mem_mapSet h1 with h2 | h2
          · exact Or.inl h2
          · right
            rw [h2]
            exact Bool.of_not_eq_false hok
        · exact Or.inr h1

theorem batchStep_rendered_mem (s : EdgeBatcherTS) (kv : String × EdgeItem)
    (h : kv ∈ s.batchStep.renderedEdges) :
    kv ∈ s.renderedEdges ∨ canRenderOk s.canRender kv.2 = true := by
  unfold EdgeBatcherTS.batchStep at h
  split at h
  · exact Or.inl h
  · dsimp only at h
    rw [apply_ite EdgeBatcherTS.renderedEdges, tsSchedule_renderedEdges] at h
    dsimp only at h
    rw [ite_self] at h
    exact admitCR_rendered_mem s.pendingEdges s.renderedEdges s.canRender 0 _ kv h

theorem flush_rendered_mem (s : EdgeBatcherTS) (kv : String × EdgeItem)
    (h : kv ∈ s.flush.renderedEdges) :
    kv ∈ s.renderedEdges ∨ canRenderOk s.canRender kv.2 = true := by
  unfold EdgeBatcherTS.flush at h
  dsimp only at h
  rcases mem_setAll h with h1 | h1
  · exact Or.inl h1
  · right
    exact (List.mem_filter.mp h1).2

theorem core_isPanningFast (s : NodeBatcher) (vis prev : NMap) :
    (s.core vis prev).isPanningFast = s.isPanningFast := by
  unfold NodeBatcher.core
  dsimp only
  rw [apply_ite NodeBatcher.isPanningFast]
  dsimp only
  rw [ite_self]
  rw [velocityKick_isPanningFast]
  by_cases hbig : (((s.newlyVisibleOf vis prev).length : ℚ) > s.threshold)
  · rw [if_pos hbig]
    dsimp only
    rw [progressiveKick_isPanningFast]
  · rw [if_neg hbig]
    by_cases hnv : 0 < (s.newlyVisibleOf vis prev).length
    · rw [if_pos hnv]
    · rw [if_neg hnv]

theorem core_raf_cases (s : NodeBatcher) (vis prev : NMap) :
    (s.core vis prev).raf = s.raf ∨ (s.core vis prev).raf = none ∨
    ((s.core vis prev).raf = some RafTask.batch ∧ s.isPanningFast = false) := by
  have key : ∀ M : NodeBatcher,
      (M.raf = s.raf ∨ M.raf = none ∨ (M.raf = some RafTask.batch ∧ s.isPanningFast = false)) →
      M.isPanningFast = s.isPanningFast →
      (M.velocityKick.raf = s.raf ∨ M.velocityKick.raf = none ∨
        (M.velocityKick.raf = some RafTask.batch ∧ s.isPanningFast = false)) := by
    intro M hM hMf
    rcases velocityKick_raf_cases M with h | ⟨h, hf⟩
    · rw [h]; exact hM
    · exact Or.inr (Or.inr ⟨h, hMf ▸ hf⟩)
  have key2 : ∀ M : NodeBatcher,
      (M.raf = s.raf ∨ M.raf = none) → M.isPanningFast = s.isPanningFast →
      (M.progressiveKick.raf = s.raf ∨ M.progressiveKick.raf = none ∨
        (M.progressiveKick.raf = some RafTask.batch ∧ s.isPanningFast = false)) := by
    intro M hM hMf
    rcases progressiveKick_raf_cases M with h | ⟨h, hf⟩
    · rw [h]
      rcases hM with h1 | h1
      · exact Or.inl h1
      · exact Or.inr (Or.inl h1)
    · exact Or.inr (Or.inr ⟨h, hMf ▸ hf⟩)
  unfold NodeBatcher.core
  dsimp only
  rw [apply_ite NodeBatcher.raf]
  dsimp only
  rw [ite_self]
  apply key
  · by_cases hbig : (((s.newlyVisibleOf vis prev).length : ℚ) > s.threshold)
    · rw [if_pos hbig]
      dsimp only
      refine key2 _ ?_ rfl
      dsimp only
      by_cases hcan : (s.isFlushing = false ∧ s.raf ≠ none)
      · rw [if_pos hcan]
        exact Or.inr rfl
      · rw [if_neg hcan]
        exact Or.inl rfl
    · rw [if_neg hbig]
      by_cases hnv : 0 < (s.newlyVisibleOf vis prev).length
      · rw [if_pos hnv]
        exact Or.inl rfl
      · rw [if_neg hnv]
        exact Or.inl rfl
  · by_cases hbig : (((s.newlyVisibleOf vis prev).length : ℚ) > s.threshold)
    · rw [if_pos hbig]
      dsimp only
      rw [progressiveKick_isPanningFast]
    · rw [if_neg hbig]
      by_cases hnv : 0 < (s.newlyVisibleOf vis prev).length
      · rw [if_pos hnv]
      · rw [if_neg hnv]

theorem core_pending_nodup (s : NodeBatcher) (vis prev : NMap)
    (h : (mapKeys s.pendingNodes).Nodup) :
    (mapKeys (s.core vis prev).pendingNodes).Nodup := by
  unfold NodeBatcher.core
  dsimp only
  rw [apply_ite NodeBatcher.pendingNodes]
  dsimp only
  rw [ite_self, velocityKick_pendingNodes]
  by_cases hbig : (((s.newlyVisibleOf vis prev).length : ℚ) > s.threshold)
  · rw [if_pos hbig]
    dsimp only
    rw [progressiveKick_pendingNodes]
    dsimp only
    apply nodup_keys_setAll
    rw [(refreshAll_keys vis _ _ _).2]
    exact nodup_keys_filter _ h
  · rw [if_neg hbig]
    by_cases hnv : 0 < (s.newlyVisibleOf vis prev).length
    · rw [if_pos hnv]
      dsimp only
      rw [(refreshAll_keys vis _ _ _).2]
      exact nodup_keys_filter _ h
    · rw [if_neg hnv]
      dsimp only
      rw [(refreshAll_keys vis _ _ _).2]
      exact nodup_keys_filter _ h

theorem core_rendered_nodup (s : NodeBatcher) (vis prev : NMap)
    (h : (mapKeys s.renderedNodes).Nodup) :
    (mapKeys (s.core vis prev).renderedNodes).Nodup := by
  unfold NodeBatcher.core
  dsimp only
  rw [apply_ite NodeBatcher.renderedNodes]
  dsimp only
  rw [ite_self, velocityKick_renderedNodes]
  by_cases hbig : (((s.newlyVisibleOf vis prev).length : ℚ) > s.threshold)
  · rw [if_pos hbig]
    dsimp only
    rw [progressiveKick_renderedNodes]
    dsimp only
    rw [(refreshAll_keys vis _ _ _).1]
    exact nodup_keys_filter _ h
  · rw [if_neg hbig]
    by_cases hnv : 0 < (s.newlyVisibleOf vis prev).length
    · rw [if_pos hnv]
      dsimp only
      apply nodup_keys_setAll
      rw [(refreshAll_keys vis _ _ _).1]
      exact nodup_keys_filter _ h
    · rw [if_neg hnv]
      dsimp only
      rw [(refreshAll_keys vis _ _ _).1]
      exact nodup_keys_filter _ h

theorem flush_rendered_eq (s : NodeBatcher) :
    s.flush.renderedNodes = setAll s.renderedNodes s.pendingNodes := by
  unfold NodeBatcher.flush
  dsimp only
  split
  · next h => rw [h]; rfl
  · rfl

theorem flush_pending_eq (s : NodeBatcher) : s.flush.pendingNodes = s.pendingNodes ∨
    s.flush.pendingNodes = [] := by
  unfold NodeBatcher.flush
  dsimp only
  split
  · exact Or.inl rfl
  · exact Or.inr rfl

theorem flush_pending_nil (s : NodeBatcher) : s.flush.pendingNodes = [] := by
  unfold NodeBatcher.flush
  dsimp only
  split
  · next h => exact h
  · rfl

theorem nbInv_update (s : NodeBatcher) (vis prev : NMap) (pos : Option (ℚ × ℚ)) (now : ℚ)
    (h0 : s.threshold ≠ 0) (hd : nbDisjoint s) (hn : nbKeysNodup s) :
    nbInv (s.updateVisibleNodes vis prev pos now).1 vis := by
  have hp := updateVisibleNodes_pendingNodes_has s vis prev pos now
  have hr := updateVisibleNodes_renderedNodes_has s vis prev pos now
  have hnv := newlyVisibleOf_has s vis prev
  refine ⟨?_, ?_, ?_, ?_⟩
  · intro k hk
    rw [hp k h0] at hk
    rw [hr k h0]
    rcases Bool.or_eq_true_iff.mp hk with h1 | h1
    · have hP : mapHas s.pendingNodes k = true := (Bool.and_eq_true_iff.mp h1).1
      have hR : mapHas s.renderedNodes k = false := hd k hP
      have hnvk : mapHas (s.newlyVisibleOf vis prev) k = false := by
        rw [hnv k, hP]
        simp
      rw [hR, hnvk]
      simp
    · have hbig := (Bool.and_eq_true_iff.mp h1).1
      have hnvk := (Bool.and_eq_true_iff.mp h1).2
      have hR : mapHas s.renderedNodes k = false := by
        have := hnv k
        rw [hnvk] at this
        rcases Bool.and_eq_true_iff.mp this.symm with ⟨-, h2⟩
        rcases Bool.and_eq_true_iff.mp h2 with ⟨h3, -⟩
        rcases Bool.and_eq_true_iff.mp h3 with ⟨-, h4⟩
        simpa using h4
      rw [hR, hbig]
      simp
  · intro k hk
    rw [hr k h0] at hk
    rcases Bool.or_eq_true_iff.mp hk with h1 | h1
    · exact (Bool.and_eq_true_iff.mp h1).2
    · have hnvk := (Bool.and_eq_true_iff.mp h1).2
      have := hnv k
      rw [hnvk] at this
      exact (Bool.and_eq_true_iff.mp this.symm).1
  · intro k hk
    rw [hp k h0] at hk
    rcases Bool.or_eq_true_iff.mp hk with h1 | h1
    · exact (Bool.and_eq_true_iff.mp h1).2
    · have hnvk := (Bool.and_eq_true_iff.mp h1).2
      have := hnv k
      rw [hnvk] at this
      exact (Bool.and_eq_true_iff.mp this.symm).1
  · obtain ⟨hps, hrs, ht, -⟩ := velocityStep_stable s pos now
    unfold NodeBatcher.updateVisibleNodes
    rw [if_neg (ht ▸ h0)]
    dsimp only
    constructor
    · apply core_pending_nodup
      rw [hps]
      exact hn.1
    · apply core_rendered_nodup
      rw [hrs]
      exact hn.2

theorem nbComplete_update (s : NodeBatcher) (vis prev : NMap) (pos : Option (ℚ × ℚ)) (now : ℚ)
    (h0 : s.threshold ≠ 0)
    (hprev : ∀ k, mapHas vis k = true → mapHas prev k = true →
      (mapHas s.renderedNodes k || mapHas s.pendingNodes k) = true) :
    nbComplete (s.updateVisibleNodes vis prev pos now).1 vis := by
  intro k hk
  have hp := updateVisibleNodes_pendingNodes_has s vis prev pos now k h0
  have hr := updateVisibleNodes_renderedNodes_has s vis prev pos now k h0
  have hnv := newlyVisibleOf_has s vis prev k
  rw [hp, hr]
  by_cases hR : mapHas s.renderedNodes k = true
  · rw [hR, hk]
    simp
  · by_cases hP : mapHas s.pendingNodes k = true
    · rw [hP, hk]
      simp
    · have hRf : mapHas s.renderedNodes k = false := by simpa using hR
      have hPf : mapHas s.pendingNodes k = false := by simpa using hP
      have hprevf : mapHas prev k = false := by
        by_cases hpv : mapHas prev k = true
        · have := hprev k hk hpv
          rw [hRf, hPf] at this
          simp at this
        · simpa using hpv
      have hnvk : mapHas (s.newlyVisibleOf vis prev) k = true := by
        rw [hnv, hk, hprevf, hRf, hPf]
        rfl
      rw [hnvk, hRf, hPf]
      cases hbig : decide (((s.newlyVisibleOf vis prev).length : ℚ) > s.threshold) <;> simp

theorem nbInv_fireRaf (s : NodeBatcher) (vis : NMap) (h : nbInv s vis) :
    nbInv s.fireRaf vis ∧ (nbComplete s vis → nbComplete s.fireRaf vis) := by
  obtain ⟨hd, hrsub, hpsub, hnp, hnr⟩ := h
  have key : ∀ (pend2 rend2 : NMap) (lim : ℚ),
      pend2 = (admitGo s.pendingNodes s.renderedNodes 0 lim).1 →
      rend2 = (admitGo s.pendingNodes s.renderedNodes 0 lim).2.1 →
      ((∀ k, mapHas pend2 k = true → mapHas rend2 k = false) ∧
        keysSub rend2 vis ∧ keysSub pend2 vis ∧
        (mapKeys pend2).Nodup ∧ (mapKeys rend2).Nodup) ∧
      (nbComplete s vis →
        ∀ k, mapHas vis k = true → (mapHas rend2 k || mapHas pend2 k) = true) := by
    intro pend2 rend2 lim hpe hre
    subst hpe hre
    refine ⟨⟨?_, ?_, ?_, ?_, ?_⟩, ?_⟩
    · intro k hk
      by_cases hr2 : mapHas (admitGo s.pendingNodes s.renderedNodes 0 lim).2.1 k = true
      · have hR := admitGo_rendered_new s.pendingNodes s.renderedNodes 0 lim k hnp hr2 hk
        have hP : mapHas s.pendingNodes k = true := by
          have hsub := admitGo_pending_sublist s.pendingNodes s.renderedNodes 0 lim
          have hmem := mem_keys_of_mapHas hk
          exact mapHas_of_mem_keys ((List.Sublist.map Prod.fst hsub).subset hmem)
        have := hd k hP
        rw [hR] at this
        exact absurd this (by simp)
      · simpa using hr2
    · intro k hk
      rcases admitGo_rendered_sub s.pendingNodes s.renderedNodes 0 lim k hk with h1 | h1
      · exact hrsub k h1
      · exact hpsub k h1
    · intro k hk
      have hP : mapHas s.pendingNodes k = true := by
        have hsub := admitGo_pending_sublist s.pendingNodes s.renderedNodes 0 lim
        have hmem := mem_keys_of_mapHas hk
        exact mapHas_of_mem_keys ((List.Sublist.map Prod.fst hsub).subset hmem)
      exact hpsub k hP
    · exact admitGo_nodup_pending s.pendingNodes s.renderedNodes 0 lim hnp
    · exact admitGo_nodup_rendered s.pendingNodes s.renderedNodes 0 lim hnr
    · intro hc k hk
      rcases Bool.or_eq_true_iff.mp (hc k hk) with h1 | h1
      · rw [admitGo_rendered_mono s.pendingNodes s.renderedNodes 0 lim k h1]
        rfl
      · rcases admitGo_complete s.pendingNodes s.renderedNodes 0 lim k h1 with h2 | h2
        · rw [h2]
          simp
        · rw [h2]
          rfl
  cases hraf : s.raf with
  | none =>
    have heq : s.fireRaf = s := by
      unfold NodeBatcher.fireRaf
      rw [hraf]
    rw [heq]
    exact ⟨⟨hd, hrsub, hpsub, hnp, hnr⟩, fun hc => hc⟩
  | some task =>
    cases task with
    | batch =>
      have heq : s.fireRaf = s.batchBody := by
        unfold NodeBatcher.fireRaf
        rw [hraf]
      obtain ⟨hpe, hre⟩ := batchBody_sets s
      obtain ⟨⟨kd, krs, kps, knp, knr⟩, kc⟩ :=
        key s.batchBody.pendingNodes s.batchBody.renderedNodes
          ((⌊s.accumulator + s.batchSize⌋ : ℤ) : ℚ) hpe hre
      rw [heq]
      exact ⟨⟨kd, krs, kps, knp, knr⟩, fun hc k hk => kc hc k hk⟩
    | gradual b =>
      have heq : s.fireRaf = s.gradualBody b := by
        unfold NodeBatcher.fireRaf
        rw [hraf]
      obtain ⟨hpe, hre⟩ := gradualBody_sets s b
      have hpe2 : (s.gradualBody b).pendingNodes = (admitGo s.pendingNodes s.renderedNodes 0 b).1 := hpe
      have hre2 : (s.gradualBody b).renderedNodes
          = (admitGo s.pendingNodes s.renderedNodes 0 b).2.1 := hre
      obtain ⟨⟨kd, krs, kps, knp, knr⟩, kc⟩ :=
        key (s.gradualBody b).pendingNodes (s.gradualBody b).renderedNodes b hpe2 hre2
      rw [heq]
      exact ⟨⟨kd, krs, kps, knp, knr⟩, fun hc k hk => kc hc k hk⟩

theorem nbInv_flush (s : NodeBatcher) (vis : NMap) (h : nbInv s vis) :
    nbInv s.flush vis ∧ (nbComplete s vis → nbComplete s.flush vis) := by
  obtain ⟨hd, hrsub, hpsub, hnp, hnr⟩ := h
  have hre := flush_rendered_eq s
  have hpe := flush_pending_nil s
  refine ⟨⟨?_, ?_, ?_, ?_, ?_⟩, ?_⟩
  · intro k hk
    rw [hpe] at hk
    exact absurd hk (by simp [mapHas])
  · intro k hk
    rw [hre, mapHas_setAll] at hk
    rcases Bool.or_eq_true_iff.mp hk with h1 | h1
    · exact hrsub k h1
    · exact hpsub k h1
  · intro k hk
    rw [hpe] at hk
    exact absurd hk (by simp [mapHas])
  · rw [hpe]
    exact List.nodup_nil
  · rw [hre]
    exact nodup_keys_setAll _ hnr
  · intro hc k hk
    rw [hre, mapHas_setAll]
    rcases Bool.or_eq_true_iff.mp (hc k hk) with h1 | h1
    · rw [h1]
      rfl
    · rw [h1]
      simp

theorem nbInv_flushGradually (s : NodeBatcher) (vis : NMap) (b : ℚ) (h : nbInv s vis) :
    nbInv (s.flushGradually b) vis ∧
    (nbComplete s vis → nbComplete (s.flushGradually b) vis) := by
  obtain ⟨hd, hrsub, hpsub, hnp, hnr⟩ := h
  obtain ⟨hpe, hre⟩ := flushGradually_sets s b
  refine ⟨⟨?_, ?_, ?_, ?_, ?_⟩, ?_⟩
  · intro k hk
    rw [hpe] at hk
    rw [hre]
    exact hd k hk
  · intro k hk
    rw [hre] at hk
    exact hrsub k hk
  · intro k hk
    rw [hpe] at hk
    exact hpsub k hk
  · rw [hpe]
    exact hnp
  · rw [hre]
    exact hnr
  · intro hc k hk
    rw [hre, hpe]
    exact hc k hk

theorem nbInv_reset (s : NodeBatcher) (vis : NMap) : nbInv s.reset vis := by
  refine ⟨?_, ?_, ?_, ?_, ?_⟩
  · intro k hk
    exact absurd hk (by simp [NodeBatcher.reset, mapHas])
  · intro k hk
    exact absurd hk (by simp [NodeBatcher.reset, mapHas])
  · intro k hk
    exact absurd hk (by simp [NodeBatcher.reset, mapHas])
  · exact List.nodup_nil
  · exact List.nodup_nil

theorem updateConfig_sets (s : NodeBatcher) (t b m : Option ℚ) :
    (s.updateConfig t b m).pendingNodes = s.pendingNodes ∧
    (s.updateConfig t b m).renderedNodes = s.renderedNodes :=
  ⟨rfl, rfl⟩

theorem roUnobserve_observed_of_not_mem (r : ResizeObs) (e : ℕ) (h : e ∉ r.observed) :
    (roUnobserve r e).observed = r.observed := by
  unfold roUnobserve
  dsimp only
  apply List.filter_eq_self.mpr
  intro x hx
  simp only [ne_eq, decide_eq_true_eq]
  intro hxe
  exact h (hxe ▸ hx)

theorem foldl_roUnobserve_calls_mono (l : List ℕ) :
    ∀ (r : ResizeObs) (c : ObsCall), c ∈ r.calls → c ∈ (l.foldl roUnobserve r).calls := by
  induction l with
  | nil => intro r c h; exact h
  | cons e rest ih =>
    intro r c h
    apply ih
    unfold roUnobserve
    dsimp only
    exact List.mem_append_left _ h

theorem foldl_roUnobserve_calls (l : List ℕ) :
    ∀ (r : ResizeObs) (u : ℕ), u ∈ l →
    ObsCall.unobserveCall u ∈ (l.foldl roUnobserve r).calls := by
  induction l with
  | nil => intro r u h; exact absurd h (List.not_mem_nil u)
  | cons e rest ih =>
    intro r u h
    rcases List.mem_cons.mp h with h1 | h1
    · subst h1
      exact foldl_roUnobserve_calls_mono rest (roUnobserve r u) _ (by simp [roUnobserve])
    · exact ih (roUnobserve r e) u h1

theorem pbLoop_calls_mono (list : List ℕ) (idx : ℕ) (set : List ℕ) (ro : ResizeObs)
    (processed bs : ℕ) (c : ObsCall) (h : c ∈ ro.calls) :
    c ∈ (pbLoop list idx set ro processed bs).2.2.1.calls := by
  unfold pbLoop
  split
  · next hlt =>
    dsimp only
    split
    · apply pbLoop_calls_mono
      unfold roObserve
      dsimp only
      exact List.mem_append_left _ h
    · exact pbLoop_calls_mono list (idx + 1) set ro processed bs c h
  · exact h
termination_by list.length - idx
decreasing_by
  · omega
  · omega

theorem schedProc_ro (s : SRO) : s.scheduleProcessing.ro = s.ro := by
  unfold SRO.scheduleProcessing
  split
  · rfl
  · rfl

theorem processBatch_unobserve_calls (s : SRO) (u : ℕ) (h : u ∈ s.pendingUnobserve) :
    ObsCall.unobserveCall u ∈ s.processBatch.ro.calls := by
  unfold SRO.processBatch
  dsimp only
  rw [apply_ite SRO.ro, schedProc_ro, ite_self]
  rw [apply_ite SRO.ro]
  dsimp only
  rw [apply_ite SRO.ro]
  dsimp only
  rw [ite_self, ite_self]
  exact pbLoop_calls_mono _ _ _ _ _ _ _ (foldl_roUnobserve_calls _ _ _ h)

/-! ## Claim theorems -/

unseal Rat.add Rat.mul Rat.sub Rat.inv in
/-- C1 counterexample: with `canRender` set to the endpoint check against
an empty node Rendered set, `updateVisibleEdges`'s below-threshold
immediate admission still puts edge `e = (a, b)` into the edge Rendered
set, although neither endpoint is rendered (the node Rendered set is
empty), falsifying the claimed cross-batcher invariant for the update
path. -/
theorem claim_C1_counterexample :
    mapHas c1After.renderedEdges "e" = true ∧
    mapHas ([] : NMap) "a" = false ∧ mapHas ([] : NMap) "b" = false ∧
    c1State.canRender = some c1CanRender ∧
    c1CanRender ⟨"a", "b"⟩ = false := by
  refine ⟨by decide, by decide, by decide, rfl, by decide⟩

/-- C1 (amended): the scheduled batch step and `flush()` admit an edge
into the edge Rendered set only if the `canRender` callback accepts it at
admission time (with `canRender` set to the endpoint check, an edge can
enter Rendered through these two paths only while both endpoints are
rendered); `updateVisibleEdges`'s immediate below-threshold admission and
the `threshold = 0` fast path perform no such check, so the claimed
invariant does not extend to them. -/
theorem claim_C1_amended (s : EdgeBatcherTS) (kv : String × EdgeItem) :
    (kv ∈ s.batchStep.renderedEdges →
      kv ∈ s.renderedEdges ∨ canRenderOk s.canRender kv.2 = true) ∧
    (kv ∈ s.flush.renderedEdges →
      kv ∈ s.renderedEdges ∨ canRenderOk s.canRender kv.2 = true) :=
  ⟨batchStep_rendered_mem s kv, flush_rendered_mem s kv⟩

unseal Rat.add Rat.mul Rat.sub Rat.inv in
/-- C1 witness: the amended claim applied to a concrete batch step that
admits edge `e`. -/
theorem claim_C1_witness :
    ("e", EdgeItem.mk "a" "b") ∈ c1wState.renderedEdges ∨
      canRenderOk c1wState.canRender (EdgeItem.mk "a" "b") = true :=
  (claim_C1_amended c1wState ("e", EdgeItem.mk "a" "b")).1 (by decide)

/-- C7: scheduling three viewports before the frame fires results in
exactly one application when the frame fires, with the last value `v3`;
`v1` and `v2` are dropped (the applied log grows by exactly `[v3]`). -/
theorem claim_C7 (s : ViewportBatcher) (v1 v2 v3 : Viewport) :
    ((((s.schedule v1).schedule v2).schedule v3).frameFire).applied = s.applied ++ [v3] ∧
    ((((s.schedule v1).schedule v2).schedule v3).frameFire).pendingViewport = none := by
  unfold ViewportBatcher.schedule ViewportBatcher.frameFire
  cases h : s.rafScheduled <;> simp [h]

/-- C10: with `threshold = 0` and a non-empty Pending set (reachable by
lowering the threshold via `updateConfig` after edges were queued),
`updateVisibleEdges` returns through the fast path without touching
Pending, `hasPendingEdges()` still reports true, and a subsequent
`flush()` admits every stale pending edge into the Rendered set
regardless of the visible set of the last update. -/
theorem claim_C10 (s : EdgeBatcher) (vis prev : NMap) (pos : Option (ℚ × ℚ)) (now : ℚ)
    (h0 : s.threshold = 0) (h1 : s.pendingEdges ≠ []) :
    (s.updateVisibleEdges vis prev pos now).1.pendingEdges = s.pendingEdges ∧
    ((s.updateVisibleEdges vis prev pos now).1).hasPendingEdges = true ∧
    (∀ kv ∈ s.pendingEdges,
      mapHas ((s.updateVisibleEdges vis prev pos now).1.flush).renderedEdges kv.1 = true) := by
  obtain ⟨hpe, hre, ht, -⟩ := ebVelocityStep_stable s pos now
  unfold EdgeBatcher.updateVisibleEdges
  rw [if_pos (ht.trans h0)]
  dsimp only
  rw [hpe]
  refine ⟨rfl, ?_, ?_⟩
  · unfold EdgeBatcher.hasPendingEdges
    dsimp only
    cases hp : s.pendingEdges with
    | nil => exact absurd hp h1
    | cons a l => rfl
  · intro kv hkv
    unfold EdgeBatcher.flush
    dsimp only
    rw [mapHas_setAll, mapHas_of_mem hkv, Bool.or_true]

unseal Rat.add Rat.mul Rat.sub Rat.inv in
/-- C10 witness: the reachable state `c10s2` (six edges queued above
threshold 5 with batch size 1, then `updateConfig` lowers the threshold
to 0) has five stale pending edges; an update with a disjoint visible set
leaves them pending, and flush admits the stale edge `e2` although it is
not in that visible set. -/
theorem claim_C10_witness :
    (c10s2.updateVisibleEdges [("x", 9)] [] none 1).1.pendingEdges = c10s2.pendingEdges ∧
    ((c10s2.updateVisibleEdges [("x", 9)] [] none 1).1).hasPendingEdges = true ∧
    mapHas (((c10s2.updateVisibleEdges [("x", 9)] [] none 1).1).flush).renderedEdges "e2"
      = true := by
  have h := claim_C10 c10s2 [("x", 9)] [] none 1 (by decide) (by decide)
  exact ⟨h.1, h.2.1, h.2.2 ("e2", 2) (by decide)⟩

unseal Rat.add Rat.mul Rat.sub Rat.inv in
/-- C5 counterexample: a scheduled batch step need not strictly decrease
the Pending set.  For the node batcher a batch size of 0 (configuration
is not validated) admits `floor(accumulator + 0) = 0` nodes and leaves
the single pending node pending; for the TS edge batcher a pending edge
rejected by `canRender` is skipped, so the step admits nothing even with
batch size 1. -/
theorem claim_C5_counterexample :
    (c5Node.raf = some RafTask.batch ∧ c5Node.pendingNodes ≠ [] ∧
      ¬ (c5Node.fireRaf.pendingNodes.length < c5Node.pendingNodes.length)) ∧
    (c5Edge.rafScheduled = true ∧ c5Edge.pendingEdges ≠ [] ∧ c5Edge.batchSize = 1 ∧
      ¬ (c5Edge.batchStep.pendingEdges.length < c5Edge.pendingEdges.length)) := by
  refine ⟨⟨by decide, by decide, by decide⟩, ⟨by decide, by decide, by decide, by decide⟩⟩

/-- C5 (amended): for the node batcher with batch size at least 1 and a
nonnegative accumulator, each firing of the scheduled batch step strictly
decreases `|Pending|`, only grows the Rendered set's membership,
re-schedules itself while nodes remain pending, and keeps the accumulator
nonnegative (so the decrease repeats until Pending reaches 0). -/
theorem claim_C5_amended (s : NodeBatcher) (h1 : s.raf = some RafTask.batch)
    (h2 : s.pendingNodes ≠ []) (h3 : 1 ≤ s.batchSize) (h4 : 0 ≤ s.accumulator) :
    s.fireRaf.pendingNodes.length < s.pendingNodes.length ∧
    (∀ k, mapHas s.renderedNodes k = true → mapHas s.fireRaf.renderedNodes k = true) ∧
    (s.fireRaf.pendingNodes ≠ [] → s.fireRaf.raf = some RafTask.batch) ∧
    0 ≤ s.fireRaf.accumulator := by
  have heq : s.fireRaf = s.batchBody := by
    unfold NodeBatcher.fireRaf
    rw [h1]
  obtain ⟨hpe, hre⟩ := batchBody_sets s
  have hn1 : (1 : ℤ) ≤ ⌊s.accumulator + s.batchSize⌋ := by
    apply Int.le_floor.mpr
    push_cast
    linarith
  have hn1q : (0 : ℚ) < ((⌊s.accumulator + s.batchSize⌋ : ℤ) : ℚ) := by
    have h5 : ((1 : ℤ) : ℚ) ≤ ((⌊s.accumulator + s.batchSize⌋ : ℤ) : ℚ) := by exact_mod_cast hn1
    push_cast at h5
    linarith
  refine ⟨?_, ?_, ?_, ?_⟩
  · rw [heq, hpe]
    exact admitGo_pending_length_lt s.pendingNodes s.renderedNodes 0 _ h2 (by simpa using hn1q)
  · intro k hk
    rw [heq, hre]
    exact admitGo_rendered_mono s.pendingNodes s.renderedNodes 0 _ k hk
  · intro hne
    rw [heq] at hne ⊢
    exact batchBody_raf_reschedule s hne
  · rw [heq, batchBody_accumulator]
    have := Int.floor_le (s.accumulator + s.batchSize)
    linarith

unseal Rat.add Rat.mul Rat.sub Rat.inv in
/-- C5 witness: the amended claim applied to a concrete scheduled batch
step with two pending nodes and batch size 1. -/
theorem claim_C5_witness :
    c5w.fireRaf.pendingNodes.length < c5w.pendingNodes.length ∧
    mapHas c5w.fireRaf.renderedNodes "r" = true ∧
    c5w.fireRaf.raf = some RafTask.batch ∧
    0 ≤ c5w.fireRaf.accumulator := by
  have h := claim_C5_amended c5w (by decide) (by decide) (by decide) (by decide)
  exact ⟨h.1, h.2.1 "r" (by decide), h.2.2.1 (by decide), h.2.2.2⟩

unseal Rat.add Rat.mul Rat.sub Rat.inv in
/-- C2 counterexample.  Node batcher: with threshold 1, empty Rendered
and Pending, visible `{a, b}` and `previouslyRendered = {a, b}`, the
claim's `newlyVisible` (visible minus Rendered ∪ Pending) has 2 > 1
members, yet after the call `a` is in neither Pending nor Rendered —
the code additionally excludes `previouslyRendered` ids.  Edge batcher
(dist): with threshold 1 and two genuinely new visible edges, `e1` is
admitted into Rendered during the same call (the first synchronous
batch), not held in Pending. -/
theorem claim_C2_counterexample :
    (c2NodeStart.renderedNodes = [] ∧ c2NodeStart.pendingNodes = [] ∧
      c2NodeStart.threshold = 1 ∧ c2Vis.length = 2 ∧
      mapHas c2NodeAfter.pendingNodes "a" = false ∧
      mapHas c2NodeAfter.renderedNodes "a" = false) ∧
    (c2EdgeStart.renderedEdges = [] ∧ c2EdgeStart.pendingEdges = [] ∧
      c2EdgeStart.threshold = 1 ∧
      mapHas c2EdgeAfter.renderedEdges "e1" = true ∧
      mapHas c2EdgeAfter.pendingEdges "e1" = false) := by
  refine ⟨⟨by decide, by decide, by decide, by decide, by decide, by decide⟩,
          by decide, by decide, by decide, by decide, by decide⟩

/-- C2 (amended, node batcher): for threshold ≠ 0, with `newlyVisible` as
the code computes it (visible ids absent from `previouslyRendered`,
Rendered and Pending): when `|newlyVisible| > threshold` every such id is
in Pending and none in Rendered after the call; otherwise every such id
is in Rendered and none in Pending.  (The dist edge batcher deviates by
synchronously admitting up to `batchSize` of the queued ids in the same
call, as the counterexample shows.) -/
theorem claim_C2_amended (s : NodeBatcher) (vis prev : NMap) (pos : Option (ℚ × ℚ)) (now : ℚ)
    (h0 : s.threshold ≠ 0) :
    ((((s.newlyVisibleOf vis prev).length : ℚ) > s.threshold →
      ∀ p ∈ s.newlyVisibleOf vis prev,
        mapHas (s.updateVisibleNodes vis prev pos now).1.pendingNodes p.1 = true ∧
        mapHas (s.updateVisibleNodes vis prev pos now).1.renderedNodes p.1 = false)) ∧
    ((¬ (((s.newlyVisibleOf vis prev).length : ℚ) > s.threshold)) →
      ∀ p ∈ s.newlyVisibleOf vis prev,
        mapHas (s.updateVisibleNodes vis prev pos now).1.renderedNodes p.1 = true ∧
        mapHas (s.updateVisibleNodes vis prev pos now).1.pendingNodes p.1 = false) := by
  constructor
  · intro hbig p hp
    have hnvk : mapHas (s.newlyVisibleOf vis prev) p.1 = true := mapHas_of_mem hp
    have hdec := newlyVisibleOf_has s vis prev p.1
    rw [hnvk] at hdec
    have hR : mapHas s.renderedNodes p.1 = false := by
      rcases Bool.and_eq_true_iff.mp hdec.symm with ⟨-, h2⟩
      rcases Bool.and_eq_true_iff.mp h2 with ⟨h3, -⟩
      rcases Bool.and_eq_true_iff.mp h3 with ⟨-, h4⟩
      simpa using h4
    constructor
    · rw [updateVisibleNodes_pendingNodes_has s vis prev pos now p.1 h0, hnvk,
        decide_eq_true hbig]
      simp
    · rw [updateVisibleNodes_renderedNodes_has s vis prev pos now p.1 h0, hnvk,
        decide_eq_true hbig, hR]
      simp [mapHas_filterKey]
  · intro hbig p hp
    have hnvk : mapHas (s.newlyVisibleOf vis prev) p.1 = true := mapHas_of_mem hp
    have hdec := newlyVisibleOf_has s vis prev p.1
    rw [hnvk] at hdec
    have hP : mapHas s.pendingNodes p.1 = false := by
      rcases Bool.and_eq_true_iff.mp hdec.symm with ⟨-, h2⟩
      rcases Bool.and_eq_true_iff.mp h2 with ⟨-, h4⟩
      simpa using h4
    have hdecb : decide (((s.newlyVisibleOf vis prev).length : ℚ) > s.threshold) = false := by
      simpa using hbig
    constructor
    · rw [updateVisibleNodes_renderedNodes_has s vis prev pos now p.1 h0, hnvk, hdecb]
      simp
    · rw [updateVisibleNodes_pendingNodes_has s vis prev pos now p.1 h0, hnvk, hdecb, hP]
      simp

unseal Rat.add Rat.mul Rat.sub Rat.inv in
/-- C2 witness: the amended claim at threshold 1 with two genuinely new
visible nodes (over threshold: both end in Pending, none in Rendered). -/
theorem claim_C2_witness :
    mapHas ((NodeBatcher.init 1 2 0).updateVisibleNodes c2Vis [] none 0).1.pendingNodes "a"
      = true ∧
    mapHas ((NodeBatcher.init 1 2 0).updateVisibleNodes c2Vis [] none 0).1.renderedNodes "a"
      = false :=
  (claim_C2_amended (NodeBatcher.init 1 2 0) c2Vis [] none 0 (by decide)).1 (by decide)
    ("a", 1) (by decide)

unseal Rat.add Rat.mul Rat.sub Rat.inv in
/-- C3 counterexample: starting from a fresh node batcher, queue six
nodes with threshold 5, lower the threshold to 0 via `updateConfig`, and
update with visible `{a}` — the fast path leaves the stale pending map
untouched, producing `a ∈ Rendered ∧ a ∈ Pending`.  The next update with
an empty visible set removes `a` from Rendered but `a` remains in
Pending, contradicting "k is in neither set regardless of the threshold
value". -/
theorem claim_C3_counterexample :
    mapHas c3s3.renderedNodes "a" = true ∧
    mapHas c3s3.pendingNodes "a" = true ∧
    mapHas ([] : NMap) "a" = false ∧
    mapHas c3s4.renderedNodes "a" = false ∧
    mapHas c3s4.pendingNodes "a" = true := by
  refine ⟨by decide, by decide, by decide, by decide, by decide⟩

/-- C3 (amended): visibility loss removes an id from the Rendered set on
the next update in every case; it also removes it from the Pending set
whenever `threshold ≠ 0`; the `threshold = 0` fast path leaves stale
Pending entries untouched.  This holds for the node batcher and for the
TS edge batcher. -/
theorem claim_C3_amended (s : NodeBatcher) (se : EdgeBatcherTS) (vis prev : NMap)
    (vise preve : EMap) (pos : Option (ℚ × ℚ)) (now : ℚ) (k : String)
    (hv : mapHas vis k = false) (hve : mapHas vise k = false) :
    (mapHas (s.updateVisibleNodes vis prev pos now).1.renderedNodes k = false ∧
      (s.threshold ≠ 0 →
        mapHas (s.updateVisibleNodes vis prev pos now).1.pendingNodes k = false)) ∧
    (mapHas (se.updateVisibleEdges vise preve).1.renderedEdges k = false ∧
      (se.threshold ≠ 0 →
        mapHas (se.updateVisibleEdges vise preve).1.pendingEdges k = false)) := by
  refine ⟨⟨?_, ?_⟩, tsUpdate_not_vis se vise preve k hve⟩
  · by_cases h0 : s.threshold = 0
    · rw [(updateVisibleNodes_zero s vis prev pos now h0).1]
      exact hv
    · rw [updateVisibleNodes_renderedNodes_has s vis prev pos now k h0,
        newlyVisibleOf_has, hv]
      simp
  · intro h0
    rw [updateVisibleNodes_pendingNodes_has s vis prev pos now k h0,
      newlyVisibleOf_has, hv]
    simp

unseal Rat.add Rat.mul Rat.sub Rat.inv in
/-- C3 witness: the amended claim at a concrete state (the reachable
`c3s3`, which has `a` rendered and stale-pending) updated with an empty
visible set, and a TS edge batcher state with `e` rendered. -/
theorem claim_C3_witness :
    (mapHas (c3s3.updateVisibleNodes [] [] none 0).1.renderedNodes "a" = false ∧
      mapHas (({ EdgeBatcherTS.init 1 1 with
        renderedEdges := [("e", ⟨"x", "y"⟩)] }).updateVisibleEdges [] []).1.renderedEdges "e"
        = false) ∧
    mapHas (({ EdgeBatcherTS.init 1 1 with
      renderedEdges := [("e", ⟨"x", "y"⟩)] }).updateVisibleEdges [] []).1.pendingEdges "e"
      = false := by
  have h := claim_C3_amended c3s3
    ({ EdgeBatcherTS.init 1 1 with renderedEdges := [("e", ⟨"x", "y"⟩)] })
    [] [] [] [] none 0 "e" (by decide) (by decide)
  have h2 := claim_C3_amended c3s3
    ({ EdgeBatcherTS.init 1 1 with renderedEdges := [("e", ⟨"x", "y"⟩)] })
    [] [] [] [] none 0 "a" (by decide) (by decide)
  exact ⟨⟨h2.1.1, h.2.1⟩, h.2.2 (by decide)⟩

unseal Rat.add Rat.mul Rat.sub Rat.inv in
/-- C4 counterexample: (i) in the reachable state `c3s3` (threshold
lowered to 0 with stale pending entries) `Pending ∩ Rendered ≠ ∅`;
(ii) after an update whose `previouslyRendered` argument lists a visible
id that is in neither internal map, that id is in neither Rendered nor
Pending, violating "every visible id is in exactly one of the two sets";
(iii) after `reset()` a previously visible id is in neither set. -/
theorem claim_C4_counterexample :
    (mapHas c3s3.renderedNodes "a" = true ∧ mapHas c3s3.pendingNodes "a" = true) ∧
    (mapHas c2Vis "a" = true ∧ mapHas c2NodeAfter.renderedNodes "a" = false ∧
      mapHas c2NodeAfter.pendingNodes "a" = false) ∧
    (mapHas c2NodeAfter.reset.renderedNodes "a" = false ∧
      mapHas c2NodeAfter.reset.pendingNodes "a" = false) := by
  refine ⟨⟨by decide, by decide⟩, ⟨by decide, by decide, by decide⟩, by decide, by decide⟩

/-- C4 (amended): for the node batcher. (i) When `threshold ≠ 0`, an
update from a state with disjoint, duplicate-free maps establishes the
invariants relative to the new visible set: Pending ∩ Rendered = ∅, both
maps' keys are visible, and keys stay duplicate-free; if additionally
every visible id of `previouslyRendered` was already in Rendered ∪
Pending, every visible id is in Rendered ∪ Pending afterwards.
(ii)–(iv) The scheduled RAF step, `flush()` and `flushGradually` preserve
the invariants and completeness.  (v) `reset()` re-establishes the
invariants but clears completeness.  (vi) `updateConfig` leaves both maps
unchanged.  (The `threshold = 0` fast path with stale pending entries
breaks disjointness, as the counterexample shows.) -/
theorem claim_C4_amended (s : NodeBatcher) (vis prev : NMap) (pos : Option (ℚ × ℚ))
    (now b : ℚ) (t bs mv : Option ℚ) :
    (s.threshold ≠ 0 → nbDisjoint s → nbKeysNodup s →
      nbInv (s.updateVisibleNodes vis prev pos now).1 vis ∧
      ((∀ k, mapHas vis k = true → mapHas prev k = true →
          (mapHas s.renderedNodes k || mapHas s.pendingNodes k) = true) →
        nbComplete (s.updateVisibleNodes vis prev pos now).1 vis)) ∧
    (nbInv s vis → nbInv s.fireRaf vis ∧ (nbComplete s vis → nbComplete s.fireRaf vis)) ∧
    (nbInv s vis → nbInv s.flush vis ∧ (nbComplete s vis → nbComplete s.flush vis)) ∧
    (nbInv s vis → nbInv (s.flushGradually b) vis ∧
      (nbComplete s vis → nbComplete (s.flushGradually b) vis)) ∧
    nbInv s.reset vis ∧
    ((s.updateConfig t bs mv).pendingNodes = s.pendingNodes ∧
      (s.updateConfig t bs mv).renderedNodes = s.renderedNodes) :=
  ⟨fun h0 hd hn =>
    ⟨nbInv_update s vis prev pos now h0 hd hn,
     fun hp => nbComplete_update s vis prev pos now h0 hp⟩,
   nbInv_fireRaf s vis, nbInv_flush s vis, nbInv_flushGradually s vis b,
   nbInv_reset s vis, updateConfig_sets s t bs mv⟩

unseal Rat.add Rat.mul Rat.sub Rat.inv in
/-- C4 witness: the amended claim at a fresh batcher with threshold 1
updated with one visible node, and the RAF step fired from the resulting
state. -/
theorem claim_C4_witness :
    nbInv ((NodeBatcher.init 1 2 0).updateVisibleNodes [("a", 1)] [] none 0).1 [("a", 1)] ∧
    nbComplete ((NodeBatcher.init 1 2 0).updateVisibleNodes [("a", 1)] [] none 0).1
      [("a", 1)] ∧
    nbInv (NodeBatcher.init 1 2 0).fireRaf [("a", 1)] ∧
    nbInv (NodeBatcher.init 1 2 0).reset [("a", 1)] := by
  have hd : nbDisjoint (NodeBatcher.init 1 2 0) := by
    intro k hk
    simp [NodeBatcher.init, mapHas] at hk
  have hn : nbKeysNodup (NodeBatcher.init 1 2 0) := by
    constructor <;> simp [NodeBatcher.init, mapKeys]
  have hinv : nbInv (NodeBatcher.init 1 2 0) [("a", 1)] := by
    refine ⟨hd, ?_, ?_, hn⟩
    · intro k hk
      simp [NodeBatcher.init, mapHas] at hk
    · intro k hk
      simp [NodeBatcher.init, mapHas] at hk
  have h := claim_C4_amended (NodeBatcher.init 1 2 0) [("a", 1)] [] none 0 1 none none none
  refine ⟨(h.1 (by decide) hd hn).1, (h.1 (by decide) hd hn).2 ?_, (h.2.1 hinv).1,
    h.2.2.2.2.1⟩
  intro k hk hp
  simp [mapHas] at hp

unseal Rat.add Rat.mul Rat.sub Rat.inv in
/-- C6 counterexample: the batch RAF scheduled by a slow update (state
`c6s1`) survives a subsequent fast-pan update (`c6s2` measures 1000 px/s
against maxPanVelocity 500, so `isPanningFast = true`), and firing it
admits both pending nodes while the fast-panning state is still set —
batch admission does fire in that state. -/
theorem claim_C6_counterexample :
    c6s2.isPanningFast = true ∧
    c6s2.pendingNodes.length = 2 ∧
    c6s2.raf = some RafTask.batch ∧
    c6s2.fireRaf.pendingNodes.length = 0 ∧
    c6s2.fireRaf.isPanningFast = true := by
  refine ⟨by decide, by decide, by decide, by decide, by decide⟩

/-- C6 (amended): while the fast-panning flag is set, `updateVisibleNodes`
never schedules a new batch callback (the RAF handle after the call is
the old one or cancelled; a callback scheduled before fast panning began
may still fire once).  Once the stale-velocity timeout fires with no
update for the 100 ms quiet period, it clears the fast flag, zeroes the
velocity, and schedules batch admission whenever nodes are pending, no
gradual flush is running and no RAF is scheduled. -/
theorem claim_C6_amended (s : NodeBatcher) (vis prev : NMap) (pos : Option (ℚ × ℚ))
    (now now2 : ℚ) :
    ((s.updateVisibleNodes vis prev pos now).1.isPanningFast = true →
      (s.updateVisibleNodes vis prev pos now).1.raf = s.raf ∨
      (s.updateVisibleNodes vis prev pos now).1.raf = none) ∧
    (s.staleCheckScheduled = true → 100 ≤ now2 - s.lastUpdateTime →
      (s.staleVelocityCheck now2).isPanningFast = false ∧
      (s.staleVelocityCheck now2).currentVelocitySq = 0 ∧
      (s.pendingNodes ≠ [] → s.isFlushing = false → s.raf = none →
        (s.staleVelocityCheck now2).raf = some RafTask.batch)) := by
  constructor
  · intro hfast
    obtain ⟨-, -, ht, hraf, -⟩ := velocityStep_stable s pos now
    unfold NodeBatcher.updateVisibleNodes at hfast ⊢
    by_cases h0 : (s.velocityStep pos now).threshold = 0
    · rw [if_pos h0] at hfast ⊢
      exact Or.inl hraf
    · rw [if_neg h0] at hfast ⊢
      dsimp only at hfast ⊢
      rcases core_raf_cases (s.velocityStep pos now) vis prev with h | h | ⟨-, hf⟩
      · rw [h, hraf]
        exact Or.inl rfl
      · exact Or.inr h
      · rw [core_isPanningFast] at hfast
        rw [hfast] at hf
        exact absurd hf (by simp)
  · intro hsch hquiet
    unfold NodeBatcher.staleVelocityCheck
    rw [if_neg (by simp [hsch])]
    dsimp only
    rw [if_pos hquiet]
    refine ⟨?_, ?_, ?_⟩
    · rw [apply_ite NodeBatcher.isPanningFast, scheduleNextBatch_isPanningFast]
      dsimp only
      rw [ite_self]
    · rw [apply_ite NodeBatcher.currentVelocitySq]
      have hsv : ∀ t : NodeBatcher, t.scheduleNextBatch.currentVelocitySq
          = t.currentVelocitySq := by
        intro t
        rcases scheduleNextBatch_cases t with h | h <;> rw [h]
      rw [hsv]
      dsimp only
      rw [ite_self]
    · intro hp hf hr
      rw [if_pos ⟨hp, hf, hr⟩]
      unfold NodeBatcher.scheduleNextBatch
      rw [if_neg (by simp [hr, hp])]

unseal Rat.add Rat.mul Rat.sub Rat.inv in
/-- C6 witness: the amended claim applied to the fast-pan update reaching
`c6s2` (no new scheduling happens during that call) and to a concrete
stale-velocity timeout firing 200 ms after the last update, which clears
the flag and schedules the pending batch. -/
theorem claim_C6_witness :
    ((c6s1.updateVisibleNodes [("a", 1), ("b", 2)] [] (some (100, 0)) 1100).1.raf = c6s1.raf ∨
      (c6s1.updateVisibleNodes [("a", 1), ("b", 2)] [] (some (100, 0)) 1100).1.raf = none) ∧
    ((c6w.staleVelocityCheck 200).isPanningFast = false ∧
      (c6w.staleVelocityCheck 200).currentVelocitySq = 0 ∧
      (c6w.staleVelocityCheck 200).raf = some RafTask.batch) := by
  constructor
  · exact (claim_C6_amended c6s1 [("a", 1), ("b", 2)] [] (some (100, 0)) 1100 0).1 (by decide)
  · have h := (claim_C6_amended c6w [] [] none 0 200).2 (by decide) (by decide)
    exact ⟨h.1, h.2.1, h.2.2 (by decide) (by decide) (by decide)⟩

unseal Rat.add Rat.mul Rat.sub Rat.inv in
/-- C8 counterexample: there is no destroyed flag, so `updateVisibleNodes`
called after `destroy()` is not a no-op — with threshold 5 a single
visible node is admitted straight into the Rendered set. -/
theorem claim_C8_counterexample :
    c8After.renderedNodes = [("a", 1)] ∧ c8After.renderedNodes ≠ [] := by
  refine ⟨by decide, by decide⟩

/-- C8 (amended): `destroy()` is idempotent, and after `destroy()` the
operations `flush`, `flushGradually`, the RAF bodies, `scheduleNextBatch`
and the stale-velocity timeout are no-ops that leave the destroyed state
unchanged (Pending and Rendered stay empty and nothing is scheduled);
likewise for the TS edge batcher.  `updateVisibleNodes` is not gated by
`destroy()` and repopulates the state, as the counterexample shows. -/
theorem claim_C8_amended (s : NodeBatcher) (se : EdgeBatcherTS) (b now : ℚ) :
    s.destroy.destroy = s.destroy ∧
    s.destroy.flush = s.destroy ∧
    s.destroy.flushGradually b = s.destroy ∧
    s.destroy.fireRaf = s.destroy ∧
    s.destroy.scheduleNextBatch = s.destroy ∧
    s.destroy.staleVelocityCheck now = s.destroy ∧
    s.destroy.hasPendingNodes = false ∧
    se.destroy.destroy = se.destroy ∧
    se.destroy.flush = se.destroy ∧
    se.destroy.batchStep = se.destroy ∧
    se.destroy.scheduleNextBatch = se.destroy ∧
    se.destroy.hasPendingEdges = false := by
  cases s
  cases se
  refine ⟨rfl, ?_, ?_, rfl, ?_, ?_, rfl, rfl, ?_, ?_, ?_, rfl⟩
  · simp [NodeBatcher.destroy, NodeBatcher.flush]
  · simp [NodeBatcher.destroy, NodeBatcher.flushGradually]
  · simp [NodeBatcher.destroy, NodeBatcher.scheduleNextBatch]
  · simp [NodeBatcher.destroy, NodeBatcher.staleVelocityCheck]
  · simp [EdgeBatcherTS.destroy, EdgeBatcherTS.flush, setAll]
  · simp [EdgeBatcherTS.destroy, EdgeBatcherTS.batchStep]
  · simp [EdgeBatcherTS.destroy, EdgeBatcherTS.scheduleNextBatch]

theorem schedProc_pendingUnobserve (s : SRO) :
    s.scheduleProcessing.pendingUnobserve = s.pendingUnobserve := by
  unfold SRO.scheduleProcessing
  split
  · rfl
  · rfl

unseal Rat.add Rat.mul Rat.sub Rat.inv in
/-- C9 counterexample: element 7 is observed and flushed (so it is
registered with the underlying observer), then `unobserve(7)` is called.
During that call the underlying unregister is NOT invoked — the call log
still holds only the registration, and 7 merely joins the
pending-unobserve set, to be processed at the next batch — contradicting
"the underlying unregister is invoked immediately during the unobserve()
call". -/
theorem claim_C9_counterexample :
    c9s2.ro.calls = [ObsCall.observeCall 7] ∧
    7 ∉ c9s2.pendingObserveSet ∧
    c9s3.ro.calls = [ObsCall.observeCall 7] ∧
    7 ∈ c9s3.pendingUnobserve := by
  refine ⟨by decide, by decide, by decide, by decide⟩

/-- C9 (amended): `unobserve(e)` on a still-enqueued element only removes
it from the pending queue set and never touches the underlying observer;
on any other element it records `e` in the pending-unobserve set without
calling the underlying unregister during the call — the unregister call
is emitted by the next processed batch; and the underlying unregister of
a never-observed element is a no-op on the observed set, not a failure. -/
theorem claim_C9_amended (s : SRO) (e u : ℕ) (r : ResizeObs) :
    (e ∈ s.pendingObserveSet →
      (s.unobserve e).ro = s.ro ∧
      (s.unobserve e).pendingUnobserve = s.pendingUnobserve ∧
      (s.unobserve e).pendingObserveSet = s.pendingObserveSet.filter (fun x => x ≠ e)) ∧
    (e ∉ s.pendingObserveSet →
      (s.unobserve e).ro = s.ro ∧ e ∈ (s.unobserve e).pendingUnobserve) ∧
    (u ∈ s.pendingUnobserve → ObsCall.unobserveCall u ∈ s.processBatch.ro.calls) ∧
    (e ∉ r.observed → (roUnobserve r e).observed = r.observed) := by
  refine ⟨?_, ?_, processBatch_unobserve_calls s u, roUnobserve_observed_of_not_mem r e⟩
  · intro he
    unfold SRO.unobserve
    rw [if_pos he]
    exact ⟨rfl, rfl, rfl⟩
  · intro he
    unfold SRO.unobserve
    rw [if_neg he]
    constructor
    · rw [schedProc_ro]
    · rw [schedProc_pendingUnobserve]
      dsimp only
      split
      · next h => exact h
      · exact List.mem_append_right _ (List.mem_singleton_self e)

unseal Rat.add Rat.mul Rat.sub Rat.inv in
/-- C9 witness: the amended claim at concrete states — unobserving the
still-enqueued element 3 (queue removal only), unobserving the already
registered element 7 (deferred unregister, emitted by the next batch),
and the underlying unregister of the never-observed element 9. -/
theorem claim_C9_witness :
    ((c9w.unobserve 3).ro = c9w.ro ∧
      (c9w.unobserve 3).pendingUnobserve = c9w.pendingUnobserve ∧
      (c9w.unobserve 3).pendingObserveSet = c9w.pendingObserveSet.filter (fun x => x ≠ 3)) ∧
    ((c9s2.unobserve 7).ro = c9s2.ro ∧ 7 ∈ (c9s2.unobserve 7).pendingUnobserve) ∧
    ObsCall.unobserveCall 7 ∈ c9s3.processBatch.ro.calls ∧
    (roUnobserve { observed := [7], calls := [] } 9).observed = [7] := by
  refine ⟨(claim_C9_amended c9w 3 7 { observed := [7], calls := [] }).1 (by decide),
    (claim_C9_amended c9s2 7 7 { observed := [7], calls := [] }).2.1 (by decide),
    (claim_C9_amended c9s3 9 7 { observed := [7], calls := [] }).2.2.1 (by decide),
    (claim_C9_amended c9s3 9 7 { observed := [7], calls := [] }).2.2.2 (by decide)⟩
